import Mathlib

/-!
Verification of the jump-ai agent orchestration core.

A shallow embedding, in Lean 4, of the orchestration subsystem of the
`jump-ai` repository (an AI assistant for financial advisors), together with
theorems settling the specification claims about it.

JavaScript strings are modelled as `List Char`; character positions are `Nat`
(every position arising in the modelled code is non-negative; `-1` results of
`String.lastIndexOf` are modelled with `Option Nat`).  Loops without a
termination guarantee are modelled with explicit fuel and return `Option`,
`none` marking a run that exhausts the fuel (the source loop would not have
returned).  Database tables are modelled as lists of row structures, and the
external collaborators (LLM provider, Gmail/Calendar/HubSpot clients,
embedding provider) as explicit function parameters.
-/

namespace JumpAI

/-- JavaScript string, modelled as a list of characters. -/
abbrev Str := List Char

/-! ## Text chunking (`backend/src/services/chunking.ts`)

Model of `chunkText`, `findSentenceBreak`, `chunkEmail` and `chunkContact`.
-/

/-- A produced text chunk: `{ content, index, startChar, endChar }`. -/
structure TextChunk where
  content : Str
  index : Nat
  startChar : Nat
  endChar : Nat
  deriving Repr, DecidableEq

/-- Chunking options with the source defaults applied
(`chunkSize = 1500`, `chunkOverlap = 200`, `minChunkSize = 100`). -/
structure ChunkOptions where
  chunkSize : Nat := 1500
  chunkOverlap : Nat := 200
  minChunkSize : Nat := 100
  deriving Repr, DecidableEq

/-- The JavaScript whitespace characters relevant to `String.prototype.trim`
for the inputs of this code base. -/
def isJsSpace (c : Char) : Bool :=
  c = ' ' || c = '\n' || c = '\t' || c = '\r'

/-- `String.prototype.trim`: strip leading and trailing whitespace. -/
def jsTrim (s : Str) : Str :=
  ((s.dropWhile isJsSpace).reverse.dropWhile isJsSpace).reverse

/-- `text.slice(a, b)` for `0 ≤ a ≤ b` (the only case the modelled code
reaches): the characters in positions `[a, b)`. -/
def jsSlice (s : Str) (a b : Nat) : Str :=
  (s.drop a).take (b - a)

/-- Does `pat` occur in `s` starting at position `i`? -/
def matchesAt (s pat : Str) (i : Nat) : Bool :=
  pat.isPrefixOf (s.drop i)

/-- `s.lastIndexOf(pat, fromIdx)` for a non-empty `pat`: the greatest
position `i ≤ fromIdx` at which `pat` occurs in `s`, or `none` (JS `-1`).
Computed in one forward pass over `s`. -/
def lastIndexOfFrom (s pat : Str) (fromIdx : Nat) : Option Nat :=
  go s 0
where
  /-- Scan the suffix of `s` beginning at position `i`, returning the
  greatest admissible match position in it. -/
  go : Str → Nat → Option Nat
  | [], _ => none
  | l@(_ :: rest), i =>
    match go rest (i + 1) with
    | some j => some j
    | none => if i ≤ fromIdx && pat.isPrefixOf l then some i else none

/-- The six sentence-ending patterns of `findSentenceBreak`. -/
def sentenceEnders : List Str :=
  [['.', ' '], ['!', ' '], ['?', ' '], ['.', '\n'], ['!', '\n'], ['?', '\n']]

/-- `findSentenceBreak(text, start, end)`: best break position strictly after
`start`, i.e. `pos + ender.length` for the best matching ender.  `none`
models the JS return value `-1`.  The JS comparison `pos > start` with
`start = startIndex + chunkSize / 2` (a possibly half-integral float) is
equivalent, for integral `pos`, to `pos > start` under `Nat` floor division,
which is how callers pass `start` here. -/
def findSentenceBreak (text : Str) (start endIdx : Nat) : Option Nat :=
  sentenceEnders.foldl
    (fun best ender =>
      match lastIndexOfFrom text ender endIdx with
      | some pos =>
        if pos > start && (match best with
            | none => true
            | some b => pos > b) then
          some (pos + ender.length)
        else best
      | none => best)
    none

/-- The sentence-break / word-break fallback of the `endIndex` computation. -/
def chunkEndIndexRest (text : Str) (chunkSize startIndex endIndex : Nat) : Nat :=
  match findSentenceBreak text (startIndex + chunkSize / 2) endIndex with
  | some sentenceBreak => sentenceBreak
  | none =>
    match lastIndexOfFrom text [' '] endIndex with
    | some wordBreak =>
      if wordBreak > startIndex + chunkSize / 2 then wordBreak else endIndex
    | none => endIndex

/-- The `endIndex` computation of one `chunkText` loop iteration: start from
`startIndex + chunkSize`, and if that is not past the end of the text, prefer
a paragraph break, then a sentence break, then a word break, each only when
it lies strictly after `startIndex + chunkSize / 2`. -/
def chunkEndIndex (text : Str) (chunkSize startIndex : Nat) : Nat :=
  let endIndex := startIndex + chunkSize
  if endIndex < text.length then
    match lastIndexOfFrom text ['\n', '\n'] endIndex with
    | some paragraphBreak =>
      if paragraphBreak > startIndex + chunkSize / 2 then paragraphBreak
      else chunkEndIndexRest text chunkSize startIndex endIndex
    | none => chunkEndIndexRest text chunkSize startIndex endIndex
  else text.length

/-- The `while (startIndex < text.length)` loop of `chunkText`, with explicit
fuel; `none` models a run of the source loop that never terminates.  `Nat`
subtraction models the guard faithfully for the runs proved about below: when
`endIndex - chunkOverlap` would be negative in JS, a previously pushed chunk
makes the `startIndex <= chunks[last].startChar` guard fire in both models,
and with no pushed chunk both models loop forever without pushing further
chunks. -/
def chunkLoop (text : Str) (opts : ChunkOptions) :
    Nat → Nat → Nat → List TextChunk → Option (List TextChunk)
  | 0, startIndex, _, chunks =>
    if startIndex < text.length then none else some chunks
  | fuel + 1, startIndex, chunkIndex, chunks =>
    if startIndex < text.length then
      let endIndex := chunkEndIndex text opts.chunkSize startIndex
      let content := jsTrim (jsSlice text startIndex endIndex)
      let pushed := decide (content.length ≥ opts.minChunkSize)
      let chunks' := if pushed then
          chunks ++ [⟨content, chunkIndex, startIndex, endIndex⟩] else chunks
      let chunkIndex' := if pushed then chunkIndex + 1 else chunkIndex
      let next := endIndex - opts.chunkOverlap
      let next' := match chunks'.getLast? with
        | some last => if next ≤ last.startChar then endIndex else next
        | none => next
      chunkLoop text opts fuel next' chunkIndex' chunks'
    else some chunks

/-- `chunkText(text, options)`.  The early return handles the empty text and
any text shorter than `minChunkSize`; otherwise the windowing loop runs, with
fuel that is ample for every terminating run used below. -/
def chunkText (text : Str) (opts : ChunkOptions) : Option (List TextChunk) :=
  if text.length = 0 then some []
  else if text.length < opts.minChunkSize then
    some [⟨text, 0, 0, text.length⟩]
  else chunkLoop text opts ((text.length + 1) * (opts.chunkOverlap + 2)) 0 0 []

/-- A normalized email, as consumed by `chunkEmail`, `ingestEmail` and the
workflow resume path.  `dateRendered` stands for
`email.date.toLocaleDateString()`: the run-time rendering of the date is
opaque to this development, so the rendering is carried as data.  `snippet`
is the preview text used in workflow log messages. -/
structure EmailInput where
  id : Str
  threadId : Str
  fromAddr : Str
  fromName : Option Str
  toAddrs : List Str
  subject : Str
  body : Str
  snippet : Str
  dateRendered : Str
  deriving Repr, DecidableEq

/-- The structured text representation an email is chunked from:
`From`/`To`/`Subject`/`Date` header lines joined by newlines, a blank line,
then the body. -/
def emailFullText (e : EmailInput) : Str :=
  List.intercalate ['\n']
    [ "From: ".toList ++ e.fromName.getD e.fromAddr
    , "To: ".toList ++ List.intercalate ", ".toList e.toAddrs
    , "Subject: ".toList ++ e.subject
    , "Date: ".toList ++ e.dateRendered ]
  ++ "\n\n".toList ++ e.body

/-- `chunkEmail`: chunk the structured text with chunk size 1500 and overlap
200 (minimum chunk size left at its default 100). -/
def chunkEmail (e : EmailInput) : Option (List TextChunk) :=
  chunkText (emailFullText e) { chunkSize := 1500, chunkOverlap := 200 }

/-- A note attached to a CRM contact; `dateRendered` stands for
`n.createdAt.toLocaleDateString()`. -/
structure NoteInput where
  content : Str
  dateRendered : Str
  deriving Repr, DecidableEq

/-- A HubSpot contact as consumed by `chunkContact` and `ingestContact`. -/
structure ContactInput where
  id : Str
  email : Str
  firstName : Option Str
  lastName : Option Str
  company : Option Str
  phone : Option Str
  jobTitle : Option Str
  deriving Repr, DecidableEq

/-- An optional labelled header line: present only when the field is present
and non-empty, mirroring the JS `contact.company && `Company: ...``
expression inside `.filter(Boolean)`. -/
def optHeaderLine (label : Str) (v : Option Str) : Option Str :=
  match v with
  | none => none
  | some s => if s.isEmpty then none else some (label ++ s)

/-- The text a contact record is chunked from: a `Contact`/`Email` header
with optional `Company`/`Phone`/`Title` lines, then the formatted notes
when any are present. -/
def contactFullText (c : ContactInput) (notes : List NoteInput) : Str :=
  let name :=
    let n := jsTrim ((c.firstName.getD []) ++ [' '] ++ (c.lastName.getD []))
    if n.isEmpty then "Unknown".toList else n
  let header := List.intercalate ['\n'] (List.filterMap id
    [ some ("Contact: ".toList ++ name)
    , some ("Email: ".toList ++ c.email)
    , optHeaderLine "Company: ".toList c.company
    , optHeaderLine "Phone: ".toList c.phone
    , optHeaderLine "Title: ".toList c.jobTitle ])
  let notesText := List.intercalate "\n\n".toList
    (notes.map (fun n =>
      "Note (".toList ++ n.dateRendered ++ "): ".toList ++ n.content))
  if notesText.isEmpty then header
  else header ++ "\n\nNotes:\n".toList ++ notesText

/-- `chunkContact`: a contact text shorter than 500 characters is kept as a
single chunk; otherwise it is chunked with chunk size 1500 / overlap 200. -/
def chunkContact (c : ContactInput) (notes : List NoteInput) :
    Option (List TextChunk) :=
  let fullText := contactFullText c notes
  if fullText.length < 500 then
    some [⟨fullText, 0, 0, fullText.length⟩]
  else chunkText fullText { chunkSize := 1500, chunkOverlap := 200 }

/-! ## Retrieval pipeline storage (`backend/src/services/rag.ts`)

Model of the `embeddings` table and of `ingestEmail`, `ingestContact` and
`searchRAG`.  Embedding vectors themselves are abstracted away: rows carry a
`hasEmbedding` flag (the `embedding IS NOT NULL` SQL condition), and query
similarity is an explicit score function standing for
`1 - (embedding <=> query)`.
-/

/-- The `EmbeddingSource` union: `'gmail' | 'hubspot'`. -/
inductive EmbSource
  | gmail
  | hubspot
  deriving Repr, DecidableEq

/-- One row of the `embeddings` table. -/
structure EmbRow where
  id : Str
  userId : Str
  source : EmbSource
  sourceId : Str
  content : Str
  hasEmbedding : Bool
  deriving Repr, DecidableEq

/-- Decimal rendering of a chunk counter, for the generated row ids. -/
def natStr (n : Nat) : Str := (toString n).toList

/-- The `INSERT ... ON CONFLICT (source, "sourceId") DO UPDATE` of
`ingestEmail`, assuming the unique index named by the conflict target: if a
row with the same `(source, sourceId)` exists, its content and embedding are
updated in place; otherwise the new row is appended. -/
def upsertBySourceKey (db : List EmbRow) (row : EmbRow) : List EmbRow :=
  if db.any (fun r => r.source == row.source && r.sourceId == row.sourceId) then
    db.map (fun r =>
      if r.source == row.source && r.sourceId == row.sourceId then
        { r with content := row.content, hasEmbedding := row.hasEmbedding }
      else r)
  else db ++ [row]

/-- `ingestEmail(userId, email)`, acting on the embeddings table and
returning the stored chunk count.  If any row for
`(userId, 'gmail', email.id)` already exists the email is skipped and `0`
returned; otherwise the email is chunked and each chunk stored.
`none` models a run on which the chunking loop does not terminate. -/
def ingestEmail (u : Str) (e : EmailInput) (db : List EmbRow) :
    Option (List EmbRow × Nat) :=
  if (db.find? (fun r =>
      r.userId == u && r.source == EmbSource.gmail && r.sourceId == e.id)).isSome
  then some (db, 0)
  else
    match chunkEmail e with
    | none => none
    | some [] => some (db, 0)
    | some chunks =>
      let rows := (chunks.enum).map (fun ci =>
        ({ id := "emb_".toList ++ e.id ++ ['_'] ++ natStr ci.1
         , userId := u
         , source := EmbSource.gmail
         , sourceId := e.id
         , content := ci.2.content
         , hasEmbedding := true } : EmbRow))
      some (rows.foldl upsertBySourceKey db, chunks.length)

/-- Sequential plain `INSERT`s: fails (PostgreSQL duplicate-key error,
caught by the surrounding `try`) at the first row whose id is already
present, leaving the earlier inserts in place. -/
def insertRowsSeq : List EmbRow → List EmbRow → List EmbRow × Bool
  | db, [] => (db, false)
  | db, r :: rest =>
    if db.any (fun x => x.id == r.id) then (db, true)
    else insertRowsSeq (db ++ [r]) rest

/-- The generated row id `emb_hs_${contact.id}_${i}`. -/
def hsRowId (contactId : Str) (i : Nat) : Str :=
  "emb_hs_".toList ++ contactId ++ ['_'] ++ natStr i

/-- The `(userId, 'hubspot', contact id)` row key of `ingestContact`'s
`DELETE`. -/
def hsKey (u cid : Str) (r : EmbRow) : Bool :=
  r.userId == u && r.source == EmbSource.hubspot && r.sourceId == cid

/-- The rows `ingestContact` inserts: one per chunk, in chunk order. -/
def hsRows (u cid : Str) (chunks : List TextChunk) : List EmbRow :=
  (chunks.enum).map (fun ci =>
    ({ id := hsRowId cid ci.1
     , userId := u
     , source := EmbSource.hubspot
     , sourceId := cid
     , content := ci.2.content
     , hasEmbedding := true } : EmbRow))

/-- `ingestContact(userId, contact, notes)`: chunk the contact, delete every
prior row for `(userId, 'hubspot', contact.id)`, then insert one row per
chunk; returns the new chunk count, or `0` when an insert fails (the error
is caught).  `none` models a non-terminating chunking run. -/
def ingestContact (u : Str) (c : ContactInput) (notes : List NoteInput)
    (db : List EmbRow) : Option (List EmbRow × Nat) :=
  match chunkContact c notes with
  | none => none
  | some [] => some (db, 0)
  | some chunks =>
    match insertRowsSeq (db.filter (fun r => !(hsKey u c.id r)))
      (hsRows u c.id chunks) with
    | (db2, true) => some (db2, 0)
    | (db2, false) => some (db2, chunks.length)

/-- The options record of `searchRAG`, with `none` marking an absent field
(the destructuring defaults are `limit = 5`, `minScore = 0.3`). -/
structure SearchOptions where
  sources : Option (List EmbSource) := none
  limit : Option Nat := none
  minScore : Option ℚ := none

/-- A formatted search result row. -/
structure RAGSearchResult where
  id : Str
  source : EmbSource
  sourceId : Str
  content : Str
  score : ℚ
  deriving Repr, DecidableEq

/-- The malformed source-filter condition of `searchRAG`, exactly as the
JS `&&`/`||` precedence groups it:
`(sources && sources.length > 0 && !sources.includes('gmail')) ||
 (!sources?.includes('hubspot'))`.
When `sources` is `undefined` the second disjunct is `!undefined = true`. -/
def searchSourceFilterCond (sources : Option (List EmbSource)) : Bool :=
  (match sources with
   | some ss => decide (ss.length > 0) && !(ss.contains EmbSource.gmail)
   | none => false)
  || (match sources with
      | some ss => !(ss.contains EmbSource.hubspot)
      | none => true)

/-- Stable insertion into a list descending in `score`. -/
def insertByScoreDesc (score : EmbRow → ℚ) (r : EmbRow) :
    List EmbRow → List EmbRow
  | [] => [r]
  | x :: xs =>
    if score x < score r then r :: x :: xs
    else x :: insertByScoreDesc score r xs

/-- The `ORDER BY embedding <=> query` of the search SQL, i.e. descending
similarity score (ties are returned in an order the database does not
specify; this model keeps table order). -/
def sortByScoreDesc (score : EmbRow → ℚ) (l : List EmbRow) : List EmbRow :=
  l.foldr (insertByScoreDesc score) []

/-- `searchRAG(userId, query, options)` over the embeddings table.  `score`
is the query-dependent cosine similarity `1 - (embedding <=> query)`.  The
SQL orders by distance (descending score), limits, then the JS filters by
`minScore`.  When the filter condition holds but `sources` is `undefined`,
the JS `sources.map(...)` throws a `TypeError`; when it holds for an empty
`sources`, the interpolated SQL `source IN ()` is a syntax error; both are
caught by the surrounding `try` and yield `[]`. -/
def searchRAG (score : EmbRow → ℚ) (u : Str) (db : List EmbRow)
    (opts : SearchOptions) : List RAGSearchResult :=
  let limit := opts.limit.getD 5
  let minScore := opts.minScore.getD (3 / 10 : ℚ)
  let run : (EmbRow → Bool) → List RAGSearchResult := fun sourceCond =>
    ((sortByScoreDesc score
        (db.filter (fun r => r.userId == u && sourceCond r && r.hasEmbedding))).take limit
      |>.filter (fun r => decide (score r ≥ minScore))
      |>.map (fun r =>
        ({ id := r.id, source := r.source, sourceId := r.sourceId
         , content := r.content, score := score r } : RAGSearchResult)))
  if searchSourceFilterCond opts.sources then
    match opts.sources with
    | none => []
    | some [] => []
    | some ss => run (fun r => ss.contains r.source)
  else run (fun _ => true)

/-! ## Task store (`backend/src/services/tasks.ts`)

Model of the `tasks` table and of `createTask`, `updateTask`,
`getTasksWaitingForReply` and `findTaskWaitingForEmail`.  The task `data`
column holds the meeting-scheduling context; a `null` column is `none`.
-/

/-- The `TaskStatus` union. -/
inductive TaskStatus
  | pending
  | waitingReply
  | inProgress
  | completed
  | failed
  | cancelled
  deriving Repr, DecidableEq

/-- The `TaskType` union. -/
inductive TaskType
  | meetingScheduling
  | emailFollowup
  | crmUpdate
  | reminder
  | other
  deriving Repr, DecidableEq

/-- The `step` state machine nested inside a meeting-scheduling context. -/
inductive WorkflowStep
  | initial
  | sentRequest
  | receivedReply
  | scheduled
  | noted
  | confirmed
  deriving Repr, DecidableEq

/-- The string the source stores for each workflow step. -/
def stepStr : WorkflowStep → Str
  | .initial => "initial".toList
  | .sentRequest => "sent_request".toList
  | .receivedReply => "received_reply".toList
  | .scheduled => "scheduled".toList
  | .noted => "noted".toList
  | .confirmed => "confirmed".toList

/-- Role of a message in a task log. -/
inductive LogRole
  | system
  | agent
  deriving Repr, DecidableEq

/-- One entry of the append-only message log inside a task context. -/
structure LogMsg where
  role : LogRole
  content : Str
  timestamp : Str
  deriving Repr, DecidableEq

/-- The `contact` sub-object of a meeting-scheduling context. -/
structure ContactInfo where
  email : Str
  name : Option Str
  hubspotId : Option Str
  deriving Repr, DecidableEq

/-- The `meetingDetails` sub-object of a meeting-scheduling context. -/
structure MeetingDetails where
  purpose : Str
  duration : Nat
  preferredTimes : Option (List Str)
  proposedTime : Option Str
  deriving Repr, DecidableEq

/-- A `MeetingSchedulingContext`. -/
structure MeetingCtx where
  step : WorkflowStep
  contact : ContactInfo
  meetingDetails : MeetingDetails
  emailThreadId : Option Str
  lastEmailId : Option Str
  waitingForReplyFrom : Option Str
  calendarEventId : Option Str
  hubspotNoteId : Option Str
  messages : List LogMsg
  deriving Repr, DecidableEq

/-- One row of the `tasks` table.  `updatedAt` is the row version the
`orderBy: { updatedAt: 'asc' }` queries sort on; `completedAt` is set when a
task completes. -/
structure Task where
  id : Str
  userId : Str
  type : TaskType
  status : TaskStatus
  description : Str
  data : Option MeetingCtx
  updatedAt : Nat
  completedAt : Option Nat
  deriving Repr, DecidableEq

/-- A `Partial<TaskContext>` literal as passed to `updateTask`: `none`
fields are absent from the literal and left unchanged by the object spread;
`hubspotNoteId` can be present with the value `undefined` (set by
`stepAddCRMNote` even when no note was created), hence its doubled option. -/
structure CtxPatch where
  step : Option WorkflowStep := none
  contact : Option ContactInfo := none
  meetingDetails : Option MeetingDetails := none
  emailThreadId : Option Str := none
  lastEmailId : Option Str := none
  waitingForReplyFrom : Option Str := none
  calendarEventId : Option Str := none
  hubspotNoteId : Option (Option Str) := none
  deriving Repr, DecidableEq

/-- The object spread `{ ...existingData, ...updates.context }`. -/
def applyCtxPatch (ctx : MeetingCtx) (p : CtxPatch) : MeetingCtx :=
  { step := p.step.getD ctx.step
  , contact := p.contact.getD ctx.contact
  , meetingDetails := p.meetingDetails.getD ctx.meetingDetails
  , emailThreadId := p.emailThreadId <|> ctx.emailThreadId
  , lastEmailId := p.lastEmailId <|> ctx.lastEmailId
  , waitingForReplyFrom := p.waitingForReplyFrom <|> ctx.waitingForReplyFrom
  , calendarEventId := p.calendarEventId <|> ctx.calendarEventId
  , hubspotNoteId := p.hubspotNoteId.getD ctx.hubspotNoteId
  , messages := ctx.messages }

/-- The row-level effect of one `updateTask(taskId, updates)` call on the
matched task: merge the context patch into the existing data, append the
optional log message (the `'messages' in newData` guard holds whenever a
context is present), update the status when given, and stamp `completedAt`
when the update sets status `completed`.  On a task whose `data` is `null`
the spread would build a fragmentary context (never reached on the paths
modelled here), and the data is left `none`. -/
def applyTaskUpdate (status : Option TaskStatus) (patch : Option CtxPatch)
    (addMessage : Option (LogRole × Str)) (nowIso : Str) (nowT : Nat)
    (t : Task) : Task :=
  let data1 := match t.data, patch with
    | some ctx, some p => some (applyCtxPatch ctx p)
    | some ctx, none => some ctx
    | none, _ => none
  let data2 := match data1, addMessage with
    | some ctx, some (r, c) =>
      some { ctx with messages := ctx.messages ++ [⟨r, c, nowIso⟩] }
    | d, _ => d
  { t with
    status := status.getD t.status
    data := data2
    updatedAt := nowT
    completedAt := if status == some TaskStatus.completed then some nowT
      else t.completedAt }

/-- `updateTask(taskId, { status?, context?, addMessage? })` on the store:
only the row with the given id is touched. -/
def updateTaskStore (store : List Task) (taskId : Str)
    (status : Option TaskStatus) (patch : Option CtxPatch)
    (addMessage : Option (LogRole × Str)) (nowIso : Str) (nowT : Nat) :
    List Task :=
  store.map (fun t =>
    if t.id == taskId then
      applyTaskUpdate status patch addMessage nowIso nowT t
    else t)

/-- `getTask(taskId)`: lookup by id (not user-scoped in the source). -/
def getTask (store : List Task) (taskId : Str) : Option Task :=
  store.find? (fun t => t.id == taskId)

/-- Stable insertion into a list ascending in `updatedAt`. -/
def insertByUpdated (t : Task) : List Task → List Task
  | [] => [t]
  | x :: xs =>
    if t.updatedAt < x.updatedAt then t :: x :: xs
    else x :: insertByUpdated t xs

/-- `orderBy: { updatedAt: 'asc' }` (ties are returned in an order the
database does not specify; this model keeps store order). -/
def sortByUpdatedAsc (l : List Task) : List Task :=
  l.foldr insertByUpdated []

/-- `getTasksWaitingForReply(userId)`: the user's tasks with status
`waiting_reply`, ordered by `updatedAt` ascending. -/
def getTasksWaitingForReply (store : List Task) (u : Str) : List Task :=
  sortByUpdatedAsc (store.filter (fun t =>
    t.userId == u && t.status == TaskStatus.waitingReply))

/-- `s.toLowerCase()` (ASCII case folding suffices for the addresses this
code compares). -/
def lowerStr (s : Str) : Str := s.map Char.toLower

/-- `findTaskWaitingForEmail(userId, fromEmail, threadId?)`: scan the user's
waiting tasks in order; a task matches when its stored
`waitingForReplyFrom` equals the sender case-insensitively and, if a thread
id was passed (JS truthy), its `emailThreadId` equals it.  A sender match
with a mismatched thread id is skipped, not returned. -/
def findTaskWaitingForEmail (store : List Task) (u : Str) (fromEmail : Str)
    (threadId : Option Str) : Option Task :=
  (getTasksWaitingForReply store u).find? (fun task =>
    match task.data with
    | none => false
    | some ctx =>
      match ctx.waitingForReplyFrom with
      | none => false
      | some w =>
        lowerStr w == lowerStr fromEmail &&
        (match threadId with
         | some tid => ctx.emailThreadId == some tid
         | none => true))

/-! ## Meeting-scheduling workflow (`backend/src/workflows/meeting-scheduling.ts`)

Model of `executeStep`, the four step handlers, `resumeFromReply`, and the
email poller's `checkForTaskReply` (`backend/src/jobs/email-poller.ts`),
which is the path by which an arriving reply resumes a waiting task.

The external collaborators (Gmail send, calendar availability and event
creation, HubSpot lookup and note creation) and every locale- or
clock-dependent string rendering (`toLocaleDateString`, `toLocaleString`,
`toISOString`, `Date.now()`) are parameters, collected in `WorkflowEnv`.
The collaborator functions return `Option` results (`none` is the source's
`null`); a thrown provider exception and a `null` that the handler turns
into a `throw` both land in the same `catch` of `executeStep`, so `Option`
results cover the failure behaviour the claims depend on.
-/

/-- Result of `gmail.sendEmail`. -/
structure SendEmailResult where
  id : Str
  threadId : Str
  deriving Repr, DecidableEq

/-- Arguments of `gmail.sendEmail`. -/
structure SendEmailArgs where
  toAddr : Str
  subject : Str
  body : Str
  threadId : Option Str := none
  deriving Repr, DecidableEq

/-- An availability slot; `startIso` is `slot.start.toISOString()`. -/
structure TimeSlot where
  startIso : Str
  deriving Repr, DecidableEq

/-- Arguments of `calendar.createEvent`. -/
structure CalendarEventArgs where
  title : Str
  startTime : Str
  endTime : Str
  description : Str
  attendees : List Str
  sendNotifications : Bool
  deriving Repr, DecidableEq

/-- A created calendar event (only its id is consumed). -/
structure CalendarEventResult where
  id : Str
  deriving Repr, DecidableEq

/-- A HubSpot contact record as consumed by the workflow. -/
structure HubSpotContactRec where
  id : Str
  deriving Repr, DecidableEq

/-- A created HubSpot note (only its id is consumed). -/
structure HubSpotNoteRec where
  id : Str
  deriving Repr, DecidableEq

/-- External collaborators and opaque renderings used by the workflow.
Each collaborator takes the userId first. -/
structure WorkflowEnv where
  sendEmail : Str → SendEmailArgs → Option SendEmailResult
  findAvailability : Str → Nat → List TimeSlot
  createEvent : Str → CalendarEventArgs → Option CalendarEventResult
  getContactByEmail : Str → Str → Option HubSpotContactRec
  createContactNote : Str → Str → Str → Option HubSpotNoteRec
  renderTimeOptions : List TimeSlot → Str
  renderRequestBody : Option Str → Nat → Str → Str → Str
  renderConfirmBody : Option Str → Str → Nat → Str → Str
  renderLocal : Str → Str
  isoOf : Str → Str
  endIsoOf : Str → Nat → Str
  fallbackTimeIso : Str
  nowIso : Str
  nowT : Nat

/-- The apostrophe character, for log texts that contain one. -/
def apoStr : Str := [Char.ofNat 39]

/-- `WorkflowResult` (the human-readable `message` text of the source
carries no control flow and is omitted from the model). -/
structure WorkflowResult where
  success : Bool
  taskId : Str
  step : Str
  waitingForReply : Option Bool := none
  deriving Repr, DecidableEq

/-- The ghost execution log: each entry records that the step handler for
the given `(task id, step)` pair was dispatched by `executeStep`. -/
abbrev ExecLog := List (Str × WorkflowStep)

/-- Step 1 (`stepSendRequest`): look up availability, send the meeting
request email (a `null` send result is a thrown error, handled by the
caller), then move the task to `sent_request` / `waiting_reply`, recording
the thread, the proposed times and the sender awaited. -/
def stepSendRequest (env : WorkflowEnv) (u : Str) (store : List Task)
    (task : Task) (ctx : MeetingCtx) :
    Except Str (List Task × WorkflowResult) :=
  let availability := env.findAvailability u ctx.meetingDetails.duration
  let timeOptions := env.renderTimeOptions (availability.take 3)
  let emailBody := env.renderRequestBody ctx.contact.name
    ctx.meetingDetails.duration ctx.meetingDetails.purpose timeOptions
  match env.sendEmail u
    { toAddr := ctx.contact.email
    , subject := "Meeting Request: ".toList ++ ctx.meetingDetails.purpose
    , body := emailBody } with
  | none => .error "Failed to send meeting request email".toList
  | some result =>
    let store1 := updateTaskStore store task.id (some TaskStatus.waitingReply)
      (some { step := some .sentRequest
            , emailThreadId := some result.threadId
            , lastEmailId := some result.id
            , waitingForReplyFrom := some ctx.contact.email
            , meetingDetails := some { ctx.meetingDetails with
                preferredTimes := some ((availability.take 3).map TimeSlot.startIso) } })
      (some (LogRole.agent,
        "Sent meeting request email to ".toList ++ ctx.contact.email
          ++ ". Waiting for reply...".toList))
      env.nowIso env.nowT
    .ok (store1,
      { success := true, taskId := task.id, step := stepStr .sentRequest
      , waitingForReply := some true })

/-- Step 2 (`stepProcessReplyAndSchedule`) up to its recursive
continuation: take the first preferred time (or the one-day-out fallback),
create the calendar event (a `null` event is a thrown error), and move the
task to `scheduled`, recording the event id and the proposed time. -/
def stepProcessReply (env : WorkflowEnv) (u : Str) (store : List Task)
    (task : Task) (ctx : MeetingCtx) :
    Except Str (List Task × WorkflowResult) :=
  let meetingTime := (ctx.meetingDetails.preferredTimes.bind List.head?).getD
    env.fallbackTimeIso
  match env.createEvent u
    { title := "Meeting: ".toList ++ ctx.meetingDetails.purpose
    , startTime := env.isoOf meetingTime
    , endTime := env.endIsoOf meetingTime ctx.meetingDetails.duration
    , description := "Meeting with ".toList
        ++ (ctx.contact.name.getD ctx.contact.email)
        ++ "\n\nPurpose: ".toList ++ ctx.meetingDetails.purpose
    , attendees := [ctx.contact.email]
    , sendNotifications := true } with
  | none => .error "Failed to create calendar event".toList
  | some event =>
    let store1 := updateTaskStore store task.id none
      (some { step := some .scheduled
            , calendarEventId := some event.id
            , meetingDetails := some { ctx.meetingDetails with
                proposedTime := some (env.isoOf meetingTime) } })
      (some (LogRole.agent,
        "Created calendar event for ".toList ++ env.renderLocal meetingTime))
      env.nowIso env.nowT
    .ok (store1,
      { success := true, taskId := task.id, step := stepStr .scheduled })

/-- Step 3 (`stepAddCRMNote`): best-effort HubSpot note (an inner `try`
swallows collaborator errors), then move the task to `noted`, always
writing the `hubspotNoteId` field (possibly to `undefined`) and the
possibly-enriched contact. -/
def stepAddCRMNote (env : WorkflowEnv) (u : Str) (store : List Task)
    (task : Task) (ctx : MeetingCtx) :
    Except Str (List Task × WorkflowResult) :=
  let noteAttempt : Option (Str × Str) :=
    match env.getContactByEmail u ctx.contact.email with
    | none => none
    | some hc =>
      let meetingTimeRendered := match ctx.meetingDetails.proposedTime with
        | some p => env.renderLocal p
        | none => "TBD".toList
      let noteContent := "Scheduled meeting: ".toList
        ++ ctx.meetingDetails.purpose
        ++ "\nTime: ".toList ++ meetingTimeRendered
        ++ "\nDuration: ".toList ++ natStr ctx.meetingDetails.duration
        ++ " minutes\nCalendar Event ID: ".toList
        ++ ((ctx.calendarEventId).getD "undefined".toList)
      match env.createContactNote u hc.id noteContent with
      | none => none
      | some note => some (note.id, hc.id)
  let contact1 := match noteAttempt with
    | some (_, hcId) => { ctx.contact with hubspotId := some hcId }
    | none => ctx.contact
  let store1 := updateTaskStore store task.id none
    (some { step := some .noted
          , hubspotNoteId := some (noteAttempt.map Prod.fst)
          , contact := some contact1 })
    (some (LogRole.agent,
      match noteAttempt with
      | some _ => "Added note to ".toList
          ++ (ctx.contact.name.getD ctx.contact.email)
          ++ apoStr ++ "s CRM record".toList
      | none =>
        "Skipped CRM note (contact not found or HubSpot not connected)".toList))
    env.nowIso env.nowT
  .ok (store1, { success := true, taskId := task.id, step := stepStr .noted })

/-- Step 4 (`stepSendConfirmation`): send the confirmation email, as a
reply to the stored thread when one exists (a `null` send result is a
thrown error), then mark the task `completed` at step `confirmed`. -/
def stepSendConfirmation (env : WorkflowEnv) (u : Str) (store : List Task)
    (task : Task) (ctx : MeetingCtx) :
    Except Str (List Task × WorkflowResult) :=
  let meetingTime := ctx.meetingDetails.proposedTime.getD env.nowIso
  let emailBody := env.renderConfirmBody ctx.contact.name meetingTime
    ctx.meetingDetails.duration ctx.meetingDetails.purpose
  match env.sendEmail u
    { toAddr := ctx.contact.email
    , subject := "Confirmed: ".toList ++ ctx.meetingDetails.purpose
    , body := emailBody
    , threadId := ctx.emailThreadId } with
  | none => .error "Failed to send confirmation email".toList
  | some _ =>
    let store1 := updateTaskStore store task.id (some TaskStatus.completed)
      (some { step := some .confirmed })
      (some (LogRole.agent,
        "Sent confirmation email. Meeting scheduling complete!".toList))
      env.nowIso env.nowT
    .ok (store1,
      { success := true, taskId := task.id, step := stepStr .confirmed })

/-- A failure `WorkflowResult`. -/
def failResult (taskId : Str) (step : Str) : WorkflowResult :=
  { success := false, taskId := taskId, step := step }

/-- The handler `executeStep` dispatches for the given step, paired with
whether that handler re-reads the task and continues execution; `none` for
the two steps (`sent_request`, `confirmed`) the `switch` answers inline. -/
def stepAction (env : WorkflowEnv) (u : Str) (store : List Task)
    (task : Task) (ctx : MeetingCtx) :
    Option (Except Str (List Task × WorkflowResult) × Bool) :=
  match ctx.step with
  | .initial => some (stepSendRequest env u store task ctx, false)
  | .sentRequest => none
  | .receivedReply => some (stepProcessReply env u store task ctx, true)
  | .scheduled => some (stepAddCRMNote env u store task ctx, true)
  | .noted => some (stepSendConfirmation env u store task ctx, false)
  | .confirmed => none

/-- The inline (handler-free) results of the `switch`: `sent_request`
reports that the task is waiting, `confirmed` that it is complete. -/
def inlineStepResult (taskId : Str) : WorkflowStep → WorkflowResult
  | .sentRequest =>
    { success := true, taskId := taskId, step := stepStr .sentRequest
    , waitingForReply := some true }
  | step => { success := true, taskId := taskId, step := stepStr step }

/-- `executeStep(userId, task)`: dispatch on `task.data.step` inside a
`try`; a handler error marks the task `failed` with an explanatory log
entry.  The `received_reply` and `scheduled` handlers re-read the task and
recurse, modelled with fuel (`none` data would make both the `try` body and
the `catch` block throw, leaving the store untouched; every path modelled
below reaches this function with a context present).  The returned
`ExecLog` is a ghost record of the handler dispatches. -/
def executeStep (env : WorkflowEnv) (u : Str) :
    Nat → List Task → Task → List Task × WorkflowResult × ExecLog
  | 0, store, task =>
    (store, failResult task.id "fuel".toList, [])
  | fuel + 1, store, task =>
    match task.data with
    | none => (store, failResult task.id "unknown".toList, [])
    | some ctx =>
      match stepAction env u store task ctx with
      | none => (store, inlineStepResult task.id ctx.step, [])
      | some (.error msg, _) =>
        let store1 := updateTaskStore store task.id (some TaskStatus.failed)
          none (some (LogRole.system, "Error: ".toList ++ msg))
          env.nowIso env.nowT
        (store1, failResult task.id (stepStr ctx.step), [(task.id, ctx.step)])
      | some (.ok (store1, res), continue_) =>
        if continue_ then
          match getTask store1 task.id with
          | some updatedTask =>
            let r := executeStep env u fuel store1 updatedTask
            (r.1, r.2.1, (task.id, ctx.step) :: r.2.2)
          | none => (store1, res, [(task.id, ctx.step)])
        else (store1, res, [(task.id, ctx.step)])

/-- `resumeFromReply(userId, taskId, replyEmail)`: force the task to
`in_progress` at step `received_reply`, record the reply, and continue
execution.  Fuel 8 covers the longest possible handler chain. -/
def resumeFromReply (env : WorkflowEnv) (u : Str) (store : List Task)
    (taskId : Str) (replyEmail : EmailInput) :
    List Task × WorkflowResult × ExecLog :=
  match getTask store taskId with
  | none => (store, failResult taskId "unknown".toList, [])
  | some _ =>
    let store1 := updateTaskStore store taskId (some TaskStatus.inProgress)
      (some { step := some .receivedReply, lastEmailId := some replyEmail.id })
      (some (LogRole.system,
        "Received reply from ".toList ++ replyEmail.fromAddr
          ++ ": \"".toList ++ replyEmail.snippet ++ "\"".toList))
      env.nowIso env.nowT
    match getTask store1 taskId with
    | none => (store1, failResult taskId "unknown".toList, [])
    | some updatedTask => executeStep env u 8 store1 updatedTask

/-- The email poller's `checkForTaskReply(userId, email)`: find a waiting
task matching the sender (and thread, when the email's thread id is
truthy), and resume it; otherwise nothing happens. -/
def checkForTaskReply (env : WorkflowEnv) (u : Str) (store : List Task)
    (email : EmailInput) : List Task × ExecLog :=
  let threadId := if email.threadId.isEmpty then none else some email.threadId
  match findTaskWaitingForEmail store u email.fromAddr threadId with
  | none => (store, [])
  | some task =>
    ((resumeFromReply env u store task.id email).1,
      (resumeFromReply env u store task.id email).2.2)

/-! ## Tool registry and dispatch (`backend/src/agent/tools/executor.ts`)

Model of `executeTool`.  The fourteen tool implementations are
side-effecting externals; they are a parameter mapping a known tool name,
the parsed arguments and the context to either a `ToolResult` or a thrown
exception (`Except.error` carries the message the boundary `catch` turns
into a failure result).  Parsed JSON argument values are opaque
(`ArgsVal`); the distinguished value `ArgsVal.emptyObj` is the `{}`
fallback used when parsing fails.
-/

/-- An opaque parsed JSON argument value: the empty-object fallback, or any
other value abstracted by its source text. -/
inductive ArgsVal
  | emptyObj
  | value (raw : Str)
  deriving Repr, DecidableEq

/-- `ToolResult`: `{ success, data?, error? }`.  The `data` payload is
carried as an opaque rendering. -/
structure ToolResult where
  success : Bool
  data : Option Str := none
  error : Option Str := none
  deriving Repr, DecidableEq

/-- `ToolContext`: `{ userId }`. -/
structure ToolContext where
  userId : Str
  deriving Repr, DecidableEq

/-- The fourteen keys of the `toolImplementations` map. -/
inductive ToolName
  | sendEmail
  | readEmails
  | listCalendarEvents
  | findCalendarAvailability
  | createCalendarEvent
  | findHubspotContact
  | createHubspotContact
  | createHubspotNote
  | searchRag
  | storeTask
  | updateTask
  | addInstruction
  | listInstructions
  | removeInstruction
  deriving Repr, DecidableEq

/-- The string-keyed lookup `toolImplementations[toolName]`. -/
def toolNameOfString (s : Str) : Option ToolName :=
  if s == "send_email".toList then some .sendEmail
  else if s == "read_emails".toList then some .readEmails
  else if s == "list_calendar_events".toList then some .listCalendarEvents
  else if s == "find_calendar_availability".toList then
    some .findCalendarAvailability
  else if s == "create_calendar_event".toList then some .createCalendarEvent
  else if s == "find_hubspot_contact".toList then some .findHubspotContact
  else if s == "create_hubspot_contact".toList then some .createHubspotContact
  else if s == "create_hubspot_note".toList then some .createHubspotNote
  else if s == "search_rag".toList then some .searchRag
  else if s == "store_task".toList then some .storeTask
  else if s == "update_task".toList then some .updateTask
  else if s == "add_instruction".toList then some .addInstruction
  else if s == "list_instructions".toList then some .listInstructions
  else if s == "remove_instruction".toList then some .removeInstruction
  else none

/-- The type of the tool-implementation table: a tool body either returns a
`ToolResult` or throws (with the message the boundary reads off the
exception). -/
abbrev ToolImpls := ToolName → ArgsVal → ToolContext → Except Str ToolResult

/-- `executeTool(toolName, args, context)`: unknown names are reported as a
failure result; a thrown exception is caught at the boundary and converted
to `{ success: false, error }`.  No path throws. -/
def executeTool (impls : ToolImpls) (toolName : Str) (args : ArgsVal)
    (ctx : ToolContext) : ToolResult :=
  match toolNameOfString toolName with
  | none =>
    { success := false, error := some ("Unknown tool: ".toList ++ toolName) }
  | some tn =>
    match impls tn args ctx with
    | .ok result => result
    | .error e => { success := false, error := some e }

/-! ## Conversation loop (`backend/src/agent/loop.ts`)

Model of `runAgent` and `runAgentStream`.  The LLM provider is a
deterministic oracle from the current conversation to the assistant reply;
JSON parsing of tool-call arguments and JSON rendering of tool results are
opaque parameters.
-/

/-- Message roles. -/
inductive Role
  | system
  | user
  | assistant
  | tool
  deriving Repr, DecidableEq

/-- A tool call requested by the model. -/
structure ToolCallReq where
  id : Str
  name : Str
  arguments : Str
  deriving Repr, DecidableEq

/-- An `AgentMessage`. -/
structure AgentMessage where
  role : Role
  content : Str
  toolCallId : Option Str := none
  toolCalls : Option (List ToolCallReq) := none
  deriving Repr, DecidableEq

/-- Token usage of one model call. -/
structure Usage where
  promptTokens : Nat
  completionTokens : Nat
  deriving Repr, DecidableEq

/-- One assistant reply: possibly-null content, possibly-null tool-call
list, possibly-missing usage. -/
structure LLMReply where
  content : Option Str := none
  toolCalls : Option (List ToolCallReq) := none
  usage : Option Usage := none

/-- One record of the turn's execution log: `{ name, args, result }` with
`result = result.data || result.error`. -/
structure ExecRecord where
  name : Str
  args : ArgsVal
  result : Option Str
  deriving Repr, DecidableEq

/-- Accumulated usage of `AgentResult`. -/
structure UsageTotal where
  promptTokens : Nat
  completionTokens : Nat
  totalTokens : Nat
  deriving Repr, DecidableEq

/-- `AgentResult`: the whole, exact shape of the value `runAgent` returns —
it has no budget-exhaustion field. -/
structure AgentResult where
  response : Str
  toolCalls : List ExecRecord
  usage : UsageTotal
  deriving Repr, DecidableEq

/-- The environment of one agent run: the model oracle, the argument
parser (`none` models a `JSON.parse` throw, recovered as `{}`), the result
serializer, and the tool implementations with their context. -/
structure AgentEnv where
  oracle : List AgentMessage → LLMReply
  parseArgs : Str → Option Str
  renderResult : ToolResult → Str
  impls : ToolImpls
  ctx : ToolContext

/-- The fixed system prompt (its text is irrelevant to every claim; the
marker constant stands for the `AGENT_SYSTEM_PROMPT` string). -/
def agentSystemPrompt : Str := "AGENT_SYSTEM_PROMPT".toList

/-- The fixed fallback response used when the iteration budget is exhausted
with no usable assistant text. -/
def agentFallbackResponse : Str :=
  "I apologize, but I was unable to complete the request. Please try again.".toList

/-- Initial conversation: the system prompt first, then the caller history
with any system messages dropped. -/
def initialConversation (messages : List AgentMessage) : List AgentMessage :=
  ⟨Role.system, agentSystemPrompt, none, none⟩ ::
    messages.filter (fun m => !(m.role == Role.system))

/-- Execute the tool calls of one iteration in order, extending the
conversation with one tool message per call and the execution log with one
record per call. -/
def runToolCalls (env : AgentEnv) :
    List ToolCallReq → List AgentMessage → List ExecRecord →
    List AgentMessage × List ExecRecord
  | [], conv, executed => (conv, executed)
  | tc :: rest, conv, executed =>
    let args := match env.parseArgs tc.arguments with
      | some v => ArgsVal.value v
      | none => ArgsVal.emptyObj
    let result := executeTool env.impls tc.name args env.ctx
    let rec_ : ExecRecord :=
      { name := tc.name, args := args, result := result.data <|> result.error }
    let toolMsg : AgentMessage :=
      { role := Role.tool, content := env.renderResult result
      , toolCallId := some tc.id }
    runToolCalls env rest (conv ++ [toolMsg]) (executed ++ [rec_])

/-- The last assistant message of a conversation, if any. -/
def lastAssistant (conv : List AgentMessage) : Option AgentMessage :=
  (conv.filter (fun m => m.role == Role.assistant)).getLast?

/-- The `while (iteration < maxIterations)` loop of `runAgent`, recursing on
the remaining iteration budget.  The returned `Bool` is a ghost marker:
`true` when the loop exited because the budget was exhausted — the
`AgentResult` component is exactly the value the source returns, which
carries no such marker. -/
def runAgentLoop (env : AgentEnv) :
    Nat → List AgentMessage → List ExecRecord → Nat → Nat →
    AgentResult × Bool
  | 0, conv, executed, pt, ct =>
    let response := match lastAssistant conv with
      | some m => if m.content.isEmpty then agentFallbackResponse else m.content
      | none => agentFallbackResponse
    ({ response := response, toolCalls := executed
     , usage := ⟨pt, ct, pt + ct⟩ }, true)
  | remaining + 1, conv, executed, pt, ct =>
    let reply := env.oracle conv
    let pt' := pt + (reply.usage.map Usage.promptTokens).getD 0
    let ct' := ct + (reply.usage.map Usage.completionTokens).getD 0
    let assistantMsg : AgentMessage :=
      { role := Role.assistant, content := reply.content.getD []
      , toolCalls := reply.toolCalls }
    let conv1 := conv ++ [assistantMsg]
    match reply.toolCalls with
    | none =>
      ({ response := reply.content.getD [], toolCalls := executed
       , usage := ⟨pt', ct', pt' + ct'⟩ }, false)
    | some tcs =>
      if tcs.isEmpty then
        ({ response := reply.content.getD [], toolCalls := executed
         , usage := ⟨pt', ct', pt' + ct'⟩ }, false)
      else
        runAgentLoop env remaining (runToolCalls env tcs conv1 executed).1
          (runToolCalls env tcs conv1 executed).2 pt' ct'

/-- `runAgent(messages, context, config)` with the given iteration budget
(`maxIterations` defaults to 10 at the call boundary). -/
def runAgent (env : AgentEnv) (messages : List AgentMessage)
    (maxIterations : Nat) : AgentResult :=
  (runAgentLoop env maxIterations (initialConversation messages) [] 0 0).1

/-- Ghost observation: did this run exhaust its iteration budget? -/
def runAgentExhausted (env : AgentEnv) (messages : List AgentMessage)
    (maxIterations : Nat) : Bool :=
  (runAgentLoop env maxIterations (initialConversation messages) [] 0 0).2

/-- Events of the streaming variant.  The `done` payload of the source is
`{ toolCalls }` on normal termination and
`{ toolCalls, maxIterationsReached: true }` on exhaustion; the optional
field is `none` exactly when absent. -/
inductive StreamEvent
  | thinking (iteration : Nat)
  | toolCall (name : Str) (args : ArgsVal)
  | toolResult (name : Str) (result : ToolResult)
  | content (text : Str)
  | done (toolCalls : List ExecRecord) (maxIterationsReached : Option Bool)
  deriving Repr, DecidableEq

/-- The tool-execution events of one streaming iteration, interleaved as
the source yields them: `tool_call`, then `tool_result`, per call. -/
def streamToolCalls (env : AgentEnv) :
    List ToolCallReq → List AgentMessage → List ExecRecord →
    List AgentMessage × List ExecRecord × List StreamEvent
  | [], conv, executed => (conv, executed, [])
  | tc :: rest, conv, executed =>
    let args := match env.parseArgs tc.arguments with
      | some v => ArgsVal.value v
      | none => ArgsVal.emptyObj
    let result := executeTool env.impls tc.name args env.ctx
    let rec_ : ExecRecord :=
      { name := tc.name, args := args, result := result.data <|> result.error }
    let toolMsg : AgentMessage :=
      { role := Role.tool, content := env.renderResult result
      , toolCallId := some tc.id }
    let (conv', executed', events) :=
      streamToolCalls env rest (conv ++ [toolMsg]) (executed ++ [rec_])
    (conv', executed',
      StreamEvent.toolCall tc.name args
        :: StreamEvent.toolResult tc.name result :: events)

/-- The loop of `runAgentStream`, returning the full ordered event
sequence.  `iteration` is the 1-based counter the `thinking` events
carry. -/
def runAgentStreamLoop (env : AgentEnv) :
    Nat → Nat → List AgentMessage → List ExecRecord → List StreamEvent
  | 0, _, _, executed => [StreamEvent.done executed (some true)]
  | remaining + 1, iteration, conv, executed =>
    let reply := env.oracle conv
    let assistantMsg : AgentMessage :=
      { role := Role.assistant, content := reply.content.getD []
      , toolCalls := reply.toolCalls }
    let conv1 := conv ++ [assistantMsg]
    let finish : List StreamEvent :=
      (match reply.content with
       | some s => if s.isEmpty then [] else [StreamEvent.content s]
       | none => []) ++ [StreamEvent.done executed none]
    StreamEvent.thinking (iteration + 1) ::
      match reply.toolCalls with
      | none => finish
      | some tcs =>
        if tcs.isEmpty then finish
        else
          (streamToolCalls env tcs conv1 executed).2.2 ++
            runAgentStreamLoop env remaining (iteration + 1)
              (streamToolCalls env tcs conv1 executed).1
              (streamToolCalls env tcs conv1 executed).2.1

/-- `runAgentStream(messages, context, config)` as its full event trace. -/
def runAgentStream (env : AgentEnv) (messages : List AgentMessage)
    (maxIterations : Nat) : List StreamEvent :=
  runAgentStreamLoop env maxIterations 0 (initialConversation messages) []

/-! ## Proactive evaluator (`backend/src/agent/proactive.ts`)

Model of `evaluateEvent`.  The active-instruction query
(`getActiveInstructions`, an instruction-storage collaborator) is a
parameter: the caller's list of active instructions.  The model call, the
JSON extraction from the reply and the parse are collected in a decision
oracle from the built prompt: `Except.error` is a thrown provider error,
`Except.ok none` a reply with no parsable JSON object, and `Except.ok
(some d)` a parsed decision.  The returned `Nat` is a ghost counter of
model calls made.
-/

/-- An ongoing instruction. -/
structure Instruction where
  id : Str
  content : Str
  active : Bool
  deriving Repr, DecidableEq

/-- A parsed `{ shouldAct, reasoning, suggestedAction? }` decision. -/
structure Decision where
  shouldAct : Bool
  reasoning : Str
  suggestedAction : Option Str := none
  deriving Repr, DecidableEq

/-- A `ProactiveResult` as `evaluateEvent` returns it (the
`executed`/`executionResult` fields stay absent on this path). -/
structure ProactiveResult where
  shouldAct : Bool
  reasoning : Str
  suggestedAction : Option Str := none
  deriving Repr, DecidableEq

/-- The evaluation prompt, abstracted by the two interpolated pieces: the
formatted instruction list and the formatted event. -/
structure EvalPrompt where
  instructionsText : Str
  eventText : Str
  deriving Repr, DecidableEq

/-- `evaluateEvent(userId, event)`, given the user's active instructions,
the opaque instruction/event formatters and the decision oracle.  With no
active instructions it returns immediately — before the prompt is even
built — without consulting the oracle. -/
def evaluateEvent (decisionOracle : EvalPrompt → Except Str (Option Decision))
    (formatInstructions : List Instruction → Str) (eventText : Str)
    (instructions : List Instruction) : ProactiveResult × Nat :=
  if instructions.length = 0 then
    ({ shouldAct := false
     , reasoning := "No active instructions to evaluate against.".toList }, 0)
  else
    let prompt : EvalPrompt :=
      { instructionsText := formatInstructions instructions
      , eventText := eventText }
    match decisionOracle prompt with
    | .error e =>
      ({ shouldAct := false
       , reasoning := "Evaluation failed: ".toList ++ e }, 1)
    | .ok none =>
      ({ shouldAct := false
       , reasoning := "Failed to evaluate - could not parse response".toList },
        1)
    | .ok (some d) =>
      ({ shouldAct := d.shouldAct, reasoning := d.reasoning
       , suggestedAction := d.suggestedAction }, 1)

/-! ## Observations used by the claim statements -/

/-- Concatenation of chunk spans minus the overlap regions: each chunk
contributes the part of its `[startChar, endChar)` span not already covered
by an earlier chunk.  Reconstructing the input text under this reading is
the aggregate-coverage property claimed of the chunker. -/
def spanReconstructAux (text : Str) : Nat → List TextChunk → Str
  | _, [] => []
  | pos, c :: rest =>
    jsSlice text (max c.startChar pos) c.endChar
      ++ spanReconstructAux text (max pos c.endChar) rest

/-- See `spanReconstructAux`; coverage starts at position 0. -/
def spanReconstruct (text : Str) (chunks : List TextChunk) : Str :=
  spanReconstructAux text 0 chunks

/-- The stored chunk count for one `(source, sourceId)` key. -/
def countSourceRows (db : List EmbRow) (s : EmbSource) (sid : Str) : Nat :=
  (db.filter (fun r => r.source == s && r.sourceId == sid)).length

/-- The stored chunk count for one `(userId, source, sourceId)` key. -/
def countUserSourceRows (db : List EmbRow) (u : Str) (s : EmbSource)
    (sid : Str) : Nat :=
  (db.filter (fun r =>
    r.userId == u && r.source == s && r.sourceId == sid)).length

/-- Terminal task statuses: `completed`, `failed`, `cancelled`. -/
def TaskStatus.isTerminal : TaskStatus → Bool
  | .completed => true
  | .failed => true
  | .cancelled => true
  | _ => false

/-- The store's task ids, pairwise distinct in any database state (`id` is
the primary key). -/
abbrev tasksIdNodup (store : List Task) : Prop :=
  (store.map Task.id).Nodup

/-- Does a reply request at least one tool call? -/
def replyRequestsTools (r : LLMReply) : Bool :=
  match r.toolCalls with
  | some (_ :: _) => true
  | _ => false

/-- The conversation after up to `n` further iterations of the loop,
recomputed directly (no accumulators): stops early when a reply carries no
tool calls. -/
def agentConvAfter (env : AgentEnv) :
    Nat → List AgentMessage → List AgentMessage
  | 0, conv => conv
  | remaining + 1, conv =>
    let reply := env.oracle conv
    let conv1 := conv ++
      [⟨Role.assistant, reply.content.getD [], none, reply.toolCalls⟩]
    match reply.toolCalls with
    | none => conv1
    | some tcs =>
      if tcs.isEmpty then conv1
      else agentConvAfter env remaining (runToolCalls env tcs conv1 []).1

/-- The ordered log of tool calls executed over up to `n` iterations,
recomputed directly (no accumulators). -/
def agentTrace (env : AgentEnv) : Nat → List AgentMessage → List ExecRecord
  | 0, _ => []
  | remaining + 1, conv =>
    let reply := env.oracle conv
    let conv1 := conv ++
      [⟨Role.assistant, reply.content.getD [], none, reply.toolCalls⟩]
    match reply.toolCalls with
    | none => []
    | some tcs =>
      if tcs.isEmpty then []
      else
        (runToolCalls env tcs conv1 []).2
          ++ agentTrace env remaining (runToolCalls env tcs conv1 []).1

/-- The response `runAgent` assembles after budget exhaustion, as a function
of the final conversation. -/
def exhaustedResponse (conv : List AgentMessage) : Str :=
  match lastAssistant conv with
  | some m => if m.content.isEmpty then agentFallbackResponse else m.content
  | none => agentFallbackResponse

/-! ## Concrete instances used by witnesses and counterexamples -/

/-- A workflow environment whose collaborators all report unavailability
and whose renderings are trivial. -/
def trivialWorkflowEnv : WorkflowEnv where
  sendEmail := fun _ _ => none
  findAvailability := fun _ _ => []
  createEvent := fun _ _ => none
  getContactByEmail := fun _ _ => none
  createContactNote := fun _ _ _ => none
  renderTimeOptions := fun _ => []
  renderRequestBody := fun _ _ _ _ => []
  renderConfirmBody := fun _ _ _ _ => []
  renderLocal := fun s => s
  isoOf := fun s => s
  endIsoOf := fun s _ => s
  fallbackTimeIso := []
  nowIso := []
  nowT := 7

/-- A meeting context waiting on a reply from `client@example.com` in
thread `th1`. -/
def ctxWaiting : MeetingCtx where
  step := .sentRequest
  contact := ⟨"client@example.com".toList, none, none⟩
  meetingDetails := ⟨"sync".toList, 30, none, none⟩
  emailThreadId := some "th1".toList
  lastEmailId := some "m1".toList
  waitingForReplyFrom := some "Client@Example.com".toList
  calendarEventId := none
  hubspotNoteId := none
  messages := []

/-- A completed meeting-scheduling task whose context still names the same
sender — the signal that "would otherwise match it". -/
def taskDone : Task where
  id := "task1".toList
  userId := "u1".toList
  type := .meetingScheduling
  status := .completed
  description := "done".toList
  data := some { ctxWaiting with step := .confirmed }
  updatedAt := 1
  completedAt := some 1

/-- A waiting meeting-scheduling task of user `u1`. -/
def taskWaiting : Task where
  id := "task2".toList
  userId := "u1".toList
  type := .meetingScheduling
  status := .waitingReply
  description := "wait".toList
  data := some ctxWaiting
  updatedAt := 2
  completedAt := none

/-- A reply email from the awaited sender (differing in letter case), in
the awaited thread. -/
def replyEmail0 : EmailInput where
  id := "m2".toList
  threadId := "th1".toList
  fromAddr := "CLIENT@example.COM".toList
  fromName := none
  toAddrs := ["u1@example.com".toList]
  subject := "Re: sync".toList
  body := "works for me".toList
  snippet := "works for me".toList
  dateRendered := "d".toList

/-- A stored gmail chunk row (first of two) for email `e1` of user `u1`. -/
def rowG1 : EmbRow where
  id := "emb_e1_0".toList
  userId := "u1".toList
  source := .gmail
  sourceId := "e1".toList
  content := "old chunk one".toList
  hasEmbedding := true

/-- A second stored gmail chunk row for email `e1` of user `u1`. -/
def rowG2 : EmbRow where
  id := "emb_e1_1".toList
  userId := "u1".toList
  source := .gmail
  sourceId := "e1".toList
  content := "old chunk two".toList
  hasEmbedding := true

/-- A stored hubspot chunk row for contact `c1` of user `u1`. -/
def rowH1 : EmbRow where
  id := "emb_hs_c1_old".toList
  userId := "u1".toList
  source := .hubspot
  sourceId := "c1".toList
  content := "old contact text".toList
  hasEmbedding := true

/-- A short email with id `e1`: its structured text is below the minimum
chunk size, so it chunks to exactly one chunk. -/
def email0 : EmailInput where
  id := "e1".toList
  threadId := "t1".toList
  fromAddr := "a@b.c".toList
  fromName := none
  toAddrs := ["d@e.f".toList]
  subject := "hi".toList
  body := "short".toList
  snippet := "short".toList
  dateRendered := "1/2/2026".toList

/-- A short contact with id `c1`: its text is below 500 characters, so it
chunks to exactly one chunk. -/
def contact0 : ContactInput where
  id := "c1".toList
  email := "x@y.z".toList
  firstName := some "Ada".toList
  lastName := none
  company := none
  phone := none
  jobTitle := none

/-- A similarity oracle scoring every row `9/10`. -/
def score0 : EmbRow → ℚ := fun _ => 9 / 10

/-- A reply requesting one `send_email` tool call. -/
def replyTool : LLMReply where
  content := some "hi".toList
  toolCalls := some [⟨"c1".toList, "send_email".toList, "a".toList⟩]
  usage := none

/-- A plain final reply with no tool calls. -/
def replyPlain : LLMReply where
  content := some "hi".toList
  toolCalls := none
  usage := none

/-- Tool implementations that always succeed with an opaque payload. -/
def implsOk : ToolImpls := fun _ _ _ =>
  .ok { success := true, data := some "d".toList, error := none }

/-- Tool implementations that always throw. -/
def implsThrow : ToolImpls := fun _ _ _ => .error "boom".toList

/-- An agent environment whose model always requests a tool call: every
run exhausts its budget. -/
def envA : AgentEnv where
  oracle := fun _ => replyTool
  parseArgs := fun s => some s
  renderResult := fun _ => "r".toList
  impls := implsOk
  ctx := ⟨"u1".toList⟩

/-- An agent environment whose model requests a tool call on the first
iteration and answers plainly on the second. -/
def envB : AgentEnv where
  oracle := fun conv =>
    if (conv.filter (fun m => m.role == Role.assistant)).length == 0 then
      replyTool
    else replyPlain
  parseArgs := fun s => some s
  renderResult := fun _ => "r".toList
  impls := implsOk
  ctx := ⟨"u1".toList⟩

/-- The C4 counterexample text (14 characters). -/
def textC4 : Str := " ba.\n  \n  a aa".toList

/-- The C4 counterexample options. -/
def optsC4 : ChunkOptions := ⟨10, 8, 4⟩

/-- The window end `chunkEndIndex` computes on a text with no whitespace
and no sentence punctuation (every natural-boundary search fails). -/
def replChunkEnd (n cs s : Nat) : Nat :=
  if s + cs < n then s + cs else n

/-! ## Theorems -/

/-- Claim C9: proactive evaluation with zero active instructions returns
`shouldAct = false` with an explanatory reasoning string, making no model
call at all (the ghost call counter is 0), for every decision oracle and
every event. -/
theorem claim_C9_zero_instructions_no_model_call
    (decisionOracle : EvalPrompt → Except Str (Option Decision))
    (formatInstructions : List Instruction → Str) (eventText : Str) :
    evaluateEvent decisionOracle formatInstructions eventText [] =
      ({ shouldAct := false
       , reasoning := "No active instructions to evaluate against.".toList
       , suggestedAction := none }, 0) := by
  rfl

/-- Claim C7: dispatch never propagates an exception — an unknown tool name
yields `{success := false}` with an `Unknown tool:` error string, a thrown
implementation exception is converted to `{success := false, error}`, and a
returned result is passed through unchanged. -/
theorem claim_C7_dispatch_total (impls : ToolImpls) (toolName : Str)
    (args : ArgsVal) (ctx : ToolContext) :
    (toolNameOfString toolName = none →
      executeTool impls toolName args ctx =
        { success := false
        , error := some ("Unknown tool: ".toList ++ toolName) }) ∧
    (∀ tn e, toolNameOfString toolName = some tn →
      impls tn args ctx = .error e →
      executeTool impls toolName args ctx =
        { success := false, error := some e }) ∧
    (∀ tn r, toolNameOfString toolName = some tn →
      impls tn args ctx = .ok r →
      executeTool impls toolName args ctx = r) := by
  refine ⟨fun h => ?_, fun tn e h1 h2 => ?_, fun tn r h1 h2 => ?_⟩
  · simp [executeTool, h]
  · simp [executeTool, h1, h2]
  · simp [executeTool, h1, h2]

/-- Witness for C7: the unknown name `bogus` fails with its error string,
and a throwing `send_email` implementation is converted to a failure. -/
theorem claim_C7_dispatch_total_witness :
    executeTool implsThrow "bogus".toList ArgsVal.emptyObj ⟨"u1".toList⟩ =
      { success := false
      , error := some ("Unknown tool: ".toList ++ "bogus".toList) } ∧
    executeTool implsThrow "send_email".toList ArgsVal.emptyObj ⟨"u1".toList⟩ =
      { success := false, error := some "boom".toList } :=
  ⟨(claim_C7_dispatch_total implsThrow "bogus".toList ArgsVal.emptyObj
      ⟨"u1".toList⟩).1 (by decide),
   (claim_C7_dispatch_total implsThrow "send_email".toList ArgsVal.emptyObj
      ⟨"u1".toList⟩).2.1 ToolName.sendEmail "boom".toList (by decide) rfl⟩

/-- Claim C10: `chunkText` returns the empty list on the empty text, and a
single whole-text chunk (index 0, spanning the full text) on any non-empty
text strictly shorter than the configured minimum chunk size. -/
theorem claim_C10_short_text_single_chunk (opts : ChunkOptions) :
    chunkText [] opts = some [] ∧
    ∀ text : Str, text ≠ [] → text.length < opts.minChunkSize →
      chunkText text opts = some [⟨text, 0, 0, text.length⟩] := by
  constructor
  · simp [chunkText]
  · intro text h1 h2
    have hlen : text.length ≠ 0 := by
      simpa [List.length_eq_zero] using h1
    simp [chunkText, hlen, h2]

/-- Witness for C10: the five-character text `hello` with the default
options is kept as one whole chunk. -/
theorem claim_C10_short_text_single_chunk_witness :
    chunkText "hello".toList {} =
      some [⟨"hello".toList, 0, 0, ("hello".toList).length⟩] :=
  (claim_C10_short_text_single_chunk {}).2 "hello".toList (by decide)
    (by decide)

/-- Claim C1 (failing run): with a stored, embedded gmail chunk of the
caller scoring 9/10 ≥ the 0.3 default threshold, a search with no source
restriction returns the empty list — the malformed filter condition makes
the source throw internally and the `catch` turns it into `[]` — while the
same search restricted to both source kinds returns the chunk. -/
theorem claim_C1_unrestricted_search_empty :
    searchRAG score0 "u1".toList [rowG1] {} = [] ∧
    searchRAG score0 "u1".toList [rowG1]
        { sources := some [.gmail, .hubspot] } =
      [⟨rowG1.id, .gmail, rowG1.sourceId, rowG1.content, 9 / 10⟩] := by
  constructor
  · rfl
  · simp [searchRAG, searchSourceFilterCond, sortByScoreDesc,
      insertByScoreDesc, score0, rowG1]
    norm_num

/-- Counterexample to claim C2: email `e1` of user `u1` has two stored
chunk records; re-ingesting it (the email now chunks to exactly one chunk)
leaves the store unchanged and returns 0, so the stored count for
`('gmail', e1)` stays 2 — the old count, not the new chunk count 1. -/
theorem claim_C2_counterexample :
    (chunkEmail email0).map List.length = some 1 ∧
    ingestEmail "u1".toList email0 [rowG1, rowG2] = some ([rowG1, rowG2], 0) ∧
    countSourceRows [rowG1, rowG2] .gmail "e1".toList = 2 := by
  refine ⟨by decide, by decide, by decide⟩

/-- Counterexample to claim C4: on the 14-character text `textC4` with
chunk size 10 / overlap 8 / minimum 4, chunking terminates but
concatenating the produced chunks' spans (minus overlaps) does not
reconstruct the text — the dropped first window leaves character 0 outside
every produced span. -/
theorem claim_C4_counterexample :
    (chunkText textC4 optsC4).isSome = true ∧
    (chunkText textC4 optsC4).map (spanReconstruct textC4) ≠
      some textC4 := by
  refine ⟨by decide, by decide⟩

/-- Counterexample to claim C6: a budget-exhausted non-streaming run and a
normally-terminated one can return byte-for-byte identical `AgentResult`
values, so the non-streaming result carries no budget-exhausted flag. -/
theorem claim_C6_counterexample :
    runAgent envA [] 1 = runAgent envB [] 2 ∧
    runAgentExhausted envA [] 1 = true ∧
    runAgentExhausted envB [] 2 = false := by
  refine ⟨by decide, by decide, by decide⟩

/-- Every chunk the windowing loop ever outputs either was in the
accumulator already or passed the minimum-length check. -/
theorem chunkLoop_min_content (text : Str) (opts : ChunkOptions) :
    ∀ (fuel s ci : Nat) (acc res : List TextChunk),
      (∀ c ∈ acc, opts.minChunkSize ≤ c.content.length) →
      chunkLoop text opts fuel s ci acc = some res →
      ∀ c ∈ res, opts.minChunkSize ≤ c.content.length := by
  intro fuel
  induction fuel with
  | zero =>
    intro s ci acc res hacc hres
    by_cases h : s < text.length
    · simp [chunkLoop, h] at hres
    · simp only [chunkLoop, if_neg h, Option.some.injEq] at hres
      exact hres ▸ hacc
  | succ n ih =>
    intro s ci acc res hacc hres
    by_cases h : s < text.length
    · simp only [chunkLoop, if_pos h] at hres
      by_cases hp : opts.minChunkSize ≤
          (jsTrim (jsSlice text s (chunkEndIndex text opts.chunkSize s))).length
      · refine ih _ _ _ _ ?_ (by simpa [hp] using hres)
        intro c hc
        rcases List.mem_append.1 hc with hc | hc
        · exact hacc c hc
        · rcases List.mem_singleton.1 hc with rfl
          exact hp
      · exact ih _ _ _ _ hacc (by simpa [hp] using hres)
    · simp only [chunkLoop, if_neg h, Option.some.injEq] at hres
      exact hres ▸ hacc

/-- Claim C4 (amended): every chunk `chunkText` produces has content at
least the configured minimum chunk size, unless it is the only chunk of the
result (the short-text early return). -/
theorem claim_C4_amended_min_chunk (text : Str) (opts : ChunkOptions)
    (res : List TextChunk) (hres : chunkText text opts = some res) :
    ∀ c ∈ res, opts.minChunkSize ≤ c.content.length ∨ res.length = 1 := by
  intro c hc
  unfold chunkText at hres
  by_cases h0 : text.length = 0
  · simp only [if_pos h0, Option.some.injEq] at hres
    subst hres
    simp at hc
  · by_cases h1 : text.length < opts.minChunkSize
    · simp only [if_neg h0, if_pos h1, Option.some.injEq] at hres
      subst hres
      simp
    · simp only [if_neg h0, if_neg h1] at hres
      exact Or.inl
        (chunkLoop_min_content text opts _ _ _ _ _ (by simp) hres c hc)

/-- Witness for the amended C4: the first of the three chunks produced on
`textC4` with minimum chunk size 4 has content length at least 4, unless it
were the only chunk. -/
theorem claim_C4_amended_min_chunk_witness :
    4 ≤ (⟨"ba.\n  \n  a".toList, 0, 1, 11⟩ : TextChunk).content.length ∨
      ([ ⟨"ba.\n  \n  a".toList, 0, 1, 11⟩
       , ⟨".\n  \n  a".toList, 1, 3, 11⟩
       , ⟨"a aa".toList, 2, 6, 14⟩ ] : List TextChunk).length = 1 :=
  claim_C4_amended_min_chunk textC4 optsC4
    [ ⟨"ba.\n  \n  a".toList, 0, 1, 11⟩
    , ⟨".\n  \n  a".toList, 1, 3, 11⟩
    , ⟨"a aa".toList, 2, 6, 14⟩ ] (by decide)
    ⟨"ba.\n  \n  a".toList, 0, 1, 11⟩ (by decide)

/-- Membership is preserved by the insertion step of the `updatedAt`
sort. -/
theorem mem_insertByUpdated (x t : Task) :
    ∀ l : List Task, x ∈ insertByUpdated t l ↔ x = t ∨ x ∈ l := by
  intro l
  induction l with
  | nil => simp [insertByUpdated]
  | cons y ys ih =>
    by_cases h : t.updatedAt < y.updatedAt
    · simp [insertByUpdated, h]
    · simp only [insertByUpdated, if_neg h, List.mem_cons, ih]
      tauto

/-- Membership is preserved by the `updatedAt` sort. -/
theorem mem_sortByUpdatedAsc (x : Task) (l : List Task) :
    x ∈ sortByUpdatedAsc l ↔ x ∈ l := by
  induction l with
  | nil => simp [sortByUpdatedAsc]
  | cons y ys ih =>
    simp only [sortByUpdatedAsc, List.foldr_cons] at ih ⊢
    rw [mem_insertByUpdated, ih, List.mem_cons]

/-- A task found by the waiting-task scan belongs to the queried user, has
status `waiting_reply` and is a row of the store. -/
theorem findTaskWaitingForEmail_shape (store : List Task) (u f : Str)
    (threadId : Option Str) (task : Task)
    (h : findTaskWaitingForEmail store u f threadId = some task) :
    task.userId = u ∧ task.status = TaskStatus.waitingReply ∧ task ∈ store := by
  have hmem := List.mem_of_find?_eq_some h
  rw [getTasksWaitingForReply, mem_sortByUpdatedAsc, List.mem_filter] at hmem
  obtain ⟨hmem, hpred⟩ := hmem
  have hand : (task.userId == u) = true ∧
      (task.status == TaskStatus.waitingReply) = true := by
    simpa [Bool.and_eq_true] using hpred
  exact ⟨beq_iff_eq.1 hand.1, beq_iff_eq.1 hand.2, hmem⟩

/-- Claim C8: the waiting-task scan never returns a task of a different
user, and it matches the stored sender key case-insensitively — two sender
strings with the same lower-casing give identical scan results. -/
theorem claim_C8_findWaiting_scope_and_case :
    (∀ (store : List Task) (u fromEmail : Str) (threadId : Option Str)
        (task : Task),
      findTaskWaitingForEmail store u fromEmail threadId = some task →
      task.userId = u) ∧
    (∀ (store : List Task) (u f₁ f₂ : Str) (threadId : Option Str),
      lowerStr f₁ = lowerStr f₂ →
      findTaskWaitingForEmail store u f₁ threadId =
        findTaskWaitingForEmail store u f₂ threadId) := by
  constructor
  · intro store u fromEmail threadId task h
    exact (findTaskWaitingForEmail_shape store u fromEmail threadId task h).1
  · intro store u f₁ f₂ threadId h
    simp only [findTaskWaitingForEmail, h]

/-- Witness for C8: the scan, queried with an upper-cased variant of the
stored sender, returns the waiting task of the same user, and agrees with
the all-lower-case query. -/
theorem claim_C8_findWaiting_scope_and_case_witness :
    findTaskWaitingForEmail [taskDone, taskWaiting] "u1".toList
        "CLIENT@example.COM".toList (some "th1".toList) =
      some taskWaiting ∧
    taskWaiting.userId = "u1".toList ∧
    findTaskWaitingForEmail [taskDone, taskWaiting] "u1".toList
        "CLIENT@example.COM".toList (some "th1".toList) =
      findTaskWaitingForEmail [taskDone, taskWaiting] "u1".toList
        "client@example.com".toList (some "th1".toList) :=
  ⟨by decide,
   claim_C8_findWaiting_scope_and_case.1 [taskDone, taskWaiting] "u1".toList
     "CLIENT@example.COM".toList (some "th1".toList) taskWaiting (by decide),
   claim_C8_findWaiting_scope_and_case.2 [taskDone, taskWaiting] "u1".toList
     "CLIENT@example.COM".toList "client@example.com".toList
     (some "th1".toList) (by decide)⟩

/-- Sequential inserts of rows whose ids collide neither with the table nor
with each other all succeed and append in order. -/
theorem insertRowsSeq_append :
    ∀ (rows db : List EmbRow),
      (∀ r ∈ rows, ∀ x ∈ db, x.id ≠ r.id) →
      (rows.map EmbRow.id).Nodup →
      insertRowsSeq db rows = (db ++ rows, false) := by
  intro rows
  induction rows with
  | nil => intro db _ _; simp [insertRowsSeq]
  | cons r rest ih =>
    intro db h1 h2
    have hany : db.any (fun x => x.id == r.id) = false := by
      rw [List.any_eq_false]
      intro x hx
      simpa using h1 r (by simp) x hx
    rw [insertRowsSeq, hany]
    simp only [Bool.false_eq_true, if_false]
    rw [ih (db ++ [r])]
    · simp
    · intro r' hr' x hx
      rcases List.mem_append.1 hx with hx | hx
      · exact h1 r' (List.mem_cons_of_mem _ hr') x hx
      · have hxr : x = r := List.mem_singleton.1 hx
        intro hcontra
        rw [hxr] at hcontra
        have hmemid : r.id ∈ rest.map EmbRow.id := by
          rw [hcontra]
          exact List.mem_map_of_mem _ hr'
        exact (List.nodup_cons.1 (by simpa using h2)).1 hmemid
    · exact (List.nodup_cons.1 (by simpa using h2)).2

/-- Claim C2 (amended): re-ingesting an already-indexed gmail source id is
skipped — the store is unchanged and 0 returned, so the count stays the old
count — while re-ingesting a hubspot source id replaces its prior rows:
whenever the freshly generated row ids are collision-free, the stored count
for `(userId, 'hubspot', contact.id)` afterwards is exactly the new chunk
count. -/
theorem claim_C2_amended_replacement :
    (∀ (u : Str) (e : EmailInput) (db : List EmbRow) (r : EmbRow),
      r ∈ db → r.userId = u → r.source = EmbSource.gmail →
      r.sourceId = e.id → ingestEmail u e db = some (db, 0)) ∧
    (∀ (u : Str) (c : ContactInput) (notes : List NoteInput)
        (db : List EmbRow) (chunks : List TextChunk),
      chunkContact c notes = some chunks → chunks ≠ [] →
      (∀ i, i < chunks.length → ∀ x ∈ db, x.id ≠ hsRowId c.id i) →
      ((List.range chunks.length).map (hsRowId c.id)).Nodup →
      ∃ db2, ingestContact u c notes db = some (db2, chunks.length) ∧
        countUserSourceRows db2 u EmbSource.hubspot c.id = chunks.length) := by
  constructor
  · intro u e db r hmem h1 h2 h3
    have hfind : (db.find? (fun r =>
        r.userId == u && r.source == EmbSource.gmail &&
          r.sourceId == e.id)).isSome = true := by
      rw [List.find?_isSome]
      exact ⟨r, hmem, by simp [h1, h2, h3]⟩
    simp [ingestEmail, hfind]
  · intro u c notes db chunks hchunks hne hid hnodup
    obtain ⟨a, l, rfl⟩ : ∃ a l, chunks = a :: l := by
      cases chunks with
      | nil => exact absurd rfl hne
      | cons a l => exact ⟨a, l, rfl⟩
    have hrowids : (hsRows u c.id (a :: l)).map EmbRow.id =
        (List.range (a :: l).length).map (hsRowId c.id) := by
      rw [hsRows, List.map_map, ← List.enum_map_fst (a :: l), List.map_map]
      rfl
    have hins : insertRowsSeq (db.filter (fun r => !(hsKey u c.id r)))
        (hsRows u c.id (a :: l)) =
        (db.filter (fun r => !(hsKey u c.id r)) ++ hsRows u c.id (a :: l),
          false) := by
      apply insertRowsSeq_append
      · intro r' hr' x hx
        obtain ⟨ci, hci, rfl⟩ := List.mem_map.1 hr'
        have hidx : ci.1 < (a :: l).length := by
          obtain ⟨i, v⟩ := ci
          exact (List.mem_enum hci).1
        have hxdb : x ∈ db := List.mem_of_mem_filter hx
        exact fun hcontra => hid ci.1 hidx x hxdb hcontra
      · rw [hrowids]; exact hnodup
    refine ⟨db.filter (fun r => !(hsKey u c.id r)) ++ hsRows u c.id (a :: l),
      ?_, ?_⟩
    · rw [ingestContact, hchunks]
      dsimp only
      rw [hins]
    · have hcount1 :
          ((db.filter (fun r => !(hsKey u c.id r))).filter
            (hsKey u c.id)).length = 0 := by
        rw [List.filter_filter]
        simp
      have hcount2 : (hsRows u c.id (a :: l)).filter (hsKey u c.id) =
          hsRows u c.id (a :: l) := by
        rw [List.filter_eq_self]
        intro r' hr'
        obtain ⟨ci, _, rfl⟩ := List.mem_map.1 hr'
        simp [hsKey]
      rw [countUserSourceRows,
        show (fun r : EmbRow => r.userId == u &&
          r.source == EmbSource.hubspot && r.sourceId == c.id) =
          hsKey u c.id from rfl]
      rw [List.filter_append, List.length_append, hcount1, hcount2,
        Nat.zero_add, hsRows, List.length_map, List.enum_length]

/-- Witness for the amended C2: re-ingesting the already-indexed email `e1`
leaves its two rows in place, and re-ingesting contact `c1` (one new chunk)
leaves exactly one stored row for it. -/
theorem claim_C2_amended_replacement_witness :
    ingestEmail "u1".toList email0 [rowG1, rowG2] = some ([rowG1, rowG2], 0) ∧
    ∃ db2, ingestContact "u1".toList contact0 [] [rowG1, rowH1] =
        some (db2, 1) ∧
      countUserSourceRows db2 "u1".toList EmbSource.hubspot "c1".toList = 1 :=
  ⟨claim_C2_amended_replacement.1 "u1".toList email0 [rowG1, rowG2] rowG1
    (by decide) (by decide) (by decide) (by decide),
   claim_C2_amended_replacement.2 "u1".toList contact0 [] [rowG1, rowH1]
    [⟨contactFullText contact0 [], 0, 0, (contactFullText contact0 []).length⟩]
    (by decide) (by decide) (by decide) (by decide)⟩

/-- A task looked up by id bears that id. -/
theorem getTask_some_id (store : List Task) (i : Str) (t : Task)
    (h : getTask store i = some t) : t.id = i := by
  unfold getTask at h
  exact beq_iff_eq.1 (@List.find?_some Task (fun x => x.id == i) t store h)

/-- With pairwise-distinct ids, looking up a member task by its id finds
exactly that task. -/
theorem getTask_mem_nodup (store : List Task) (t : Task)
    (hnodup : tasksIdNodup store) (hmem : t ∈ store) :
    getTask store t.id = some t := by
  induction store with
  | nil => simp at hmem
  | cons x xs ih =>
    obtain ⟨hx, hxs⟩ := List.nodup_cons.1 hnodup
    rcases List.mem_cons.1 hmem with rfl | hmem'
    · simp [getTask, List.find?]
    · have hne : (x.id == t.id) = false := by
        rw [beq_eq_false_iff_ne]
        intro hcontra
        exact hx (hcontra ▸ List.mem_map_of_mem Task.id hmem')
      simp only [getTask, List.find?, hne]
      exact ih hxs hmem'

/-- `updateTask` touches only the row with the given id: lookups of any
other id are unchanged. -/
theorem updateTaskStore_getTask_ne (store : List Task) (tid : Str)
    (st : Option TaskStatus) (p : Option CtxPatch)
    (m : Option (LogRole × Str)) (ni : Str) (nt : Nat) (i : Str)
    (h : i ≠ tid) :
    getTask (updateTaskStore store tid st p m ni nt) i = getTask store i := by
  induction store with
  | nil => rfl
  | cons x xs ih =>
    simp only [updateTaskStore, List.map_cons] at ih ⊢
    cases hx : (x.id == tid) with
    | true =>
      have hxid : x.id = tid := beq_iff_eq.1 hx
      have hupdid : (applyTaskUpdate st p m ni nt x).id = x.id := rfl
      have hni : (x.id == i) = false := by
        rw [beq_eq_false_iff_ne, hxid]
        exact fun hc => h hc.symm
      simp only [getTask, List.find?, hx, if_true, hupdid, hni]
      exact ih
    | false =>
      simp only [getTask, List.find?, hx, Bool.false_eq_true, if_false]
      cases hxi : (x.id == i) with
      | true => rfl
      | false => exact ih

/-- Every `.ok` outcome of a dispatched step handler leaves the store equal
to a single `updateTask` of the handled task's id. -/
theorem stepAction_ok_shape (env : WorkflowEnv) (u : Str) (store : List Task)
    (task : Task) (ctx : MeetingCtx) (store1 : List Task)
    (res : WorkflowResult) (cont : Bool)
    (h : stepAction env u store task ctx = some (.ok (store1, res), cont)) :
    ∃ st p m, store1 = updateTaskStore store task.id st p m
      env.nowIso env.nowT := by
  cases hstep : ctx.step <;>
    simp only [stepAction, hstep] at h
  · unfold stepSendRequest at h
    cases henv : env.sendEmail u
        { toAddr := ctx.contact.email
        , subject := "Meeting Request: ".toList ++ ctx.meetingDetails.purpose
        , body := env.renderRequestBody ctx.contact.name
            ctx.meetingDetails.duration ctx.meetingDetails.purpose
            (env.renderTimeOptions
              ((env.findAvailability u ctx.meetingDetails.duration).take 3)) } <;>
      simp only [henv] at h
    · simp at h
    · obtain ⟨⟨h1, _⟩, _⟩ := by simpa using h
      exact ⟨_, _, _, h1.symm⟩
  · exact absurd h (by simp)
  · unfold stepProcessReply at h
    cases henv : env.createEvent u
        { title := "Meeting: ".toList ++ ctx.meetingDetails.purpose
        , startTime := env.isoOf
            (((ctx.meetingDetails.preferredTimes.bind List.head?)).getD
              env.fallbackTimeIso)
        , endTime := env.endIsoOf
            (((ctx.meetingDetails.preferredTimes.bind List.head?)).getD
              env.fallbackTimeIso) ctx.meetingDetails.duration
        , description := "Meeting with ".toList
            ++ (ctx.contact.name.getD ctx.contact.email)
            ++ "\n\nPurpose: ".toList ++ ctx.meetingDetails.purpose
        , attendees := [ctx.contact.email]
        , sendNotifications := true } <;>
      simp only [henv] at h
    · simp at h
    · obtain ⟨⟨h1, _⟩, _⟩ := by simpa using h
      exact ⟨_, _, _, h1.symm⟩
  · unfold stepAddCRMNote at h
    obtain ⟨⟨h1, _⟩, _⟩ := by simpa using h
    exact ⟨_, _, _, h1.symm⟩
  · unfold stepSendConfirmation at h
    cases henv : env.sendEmail u
        { toAddr := ctx.contact.email
        , subject := "Confirmed: ".toList ++ ctx.meetingDetails.purpose
        , body := env.renderConfirmBody ctx.contact.name
            (ctx.meetingDetails.proposedTime.getD env.nowIso)
            ctx.meetingDetails.duration ctx.meetingDetails.purpose
        , threadId := ctx.emailThreadId } <;>
      simp only [henv] at h
    · simp at h
    · obtain ⟨⟨h1, _⟩, _⟩ := by simpa using h
      exact ⟨_, _, _, h1.symm⟩
  · exact absurd h (by simp)

/-- `executeStep` touches only the dispatched task's row, and every ghost
log entry it produces names that task's id. -/
theorem executeStep_frame (env : WorkflowEnv) (u : Str) :
    ∀ (fuel : Nat) (store : List Task) (task : Task) (i : Str),
      i ≠ task.id →
      getTask (executeStep env u fuel store task).1 i = getTask store i ∧
      ∀ p ∈ (executeStep env u fuel store task).2.2, p.1 = task.id := by
  intro fuel
  induction fuel with
  | zero =>
    intro store task i _
    exact ⟨rfl, by simp [executeStep]⟩
  | succ n ih =>
    intro store task i hi
    cases hdata : task.data with
    | none => simp [executeStep, hdata]
    | some ctx =>
      cases hact : stepAction env u store task ctx with
      | none => simp [executeStep, hdata, hact]
      | some pair =>
        obtain ⟨exc, cont⟩ := pair
        cases exc with
        | error msg =>
          refine ⟨?_, ?_⟩
          · simp only [executeStep, hdata, hact]
            exact updateTaskStore_getTask_ne _ _ _ _ _ _ _ _ hi
          · simp [executeStep, hdata, hact]
        | ok pr =>
          obtain ⟨store1, res⟩ := pr
          obtain ⟨st, p, m, rfl⟩ :=
            stepAction_ok_shape env u store task ctx store1 res cont hact
          have hframe1 : ∀ j, j ≠ task.id →
              getTask (updateTaskStore store task.id st p m
                env.nowIso env.nowT) j = getTask store j :=
            fun j hj => updateTaskStore_getTask_ne _ _ _ _ _ _ _ _ hj
          cases hcont : cont with
          | false =>
            refine ⟨?_, ?_⟩
            · simp only [executeStep, hdata, hact, hcont,
                Bool.false_eq_true, if_false]
              exact hframe1 i hi
            · simp [executeStep, hdata, hact, hcont]
          | true =>
            cases hget : getTask (updateTaskStore store task.id st p m
                env.nowIso env.nowT) task.id with
            | none =>
              refine ⟨?_, ?_⟩
              · simp only [executeStep, hdata, hact, hcont, if_true, hget]
                exact hframe1 i hi
              · simp [executeStep, hdata, hact, hcont, hget]
            | some updatedTask =>
              have hupd : updatedTask.id = task.id :=
                getTask_some_id _ _ _ hget
              have hrec := ih (updateTaskStore store task.id st p m
                env.nowIso env.nowT) updatedTask i (by rw [hupd]; exact hi)
              refine ⟨?_, ?_⟩
              · simp only [executeStep, hdata, hact, hcont, if_true, hget]
                exact hrec.1.trans (hframe1 i hi)
              · simp only [executeStep, hdata, hact, hcont, if_true, hget,
                  List.mem_cons]
                rintro q (rfl | hq)
                · rfl
                · exact hupd ▸ hrec.2 q hq

/-- `resumeFromReply` touches only the resumed task's row, and every ghost
log entry names the resumed task's id. -/
theorem resumeFromReply_frame (env : WorkflowEnv) (u : Str)
    (store : List Task) (taskId : Str) (email : EmailInput) (i : Str)
    (hi : i ≠ taskId) :
    getTask (resumeFromReply env u store taskId email).1 i =
      getTask store i ∧
    ∀ p ∈ (resumeFromReply env u store taskId email).2.2, p.1 = taskId := by
  unfold resumeFromReply
  cases hget0 : getTask store taskId with
  | none => simp
  | some t0 =>
    set s1 := updateTaskStore store taskId
        (some TaskStatus.inProgress)
        (some { step := some .receivedReply, lastEmailId := some email.id })
        (some (LogRole.system,
          "Received reply from ".toList ++ email.fromAddr
            ++ ": \"".toList ++ email.snippet ++ "\"".toList))
        env.nowIso env.nowT with hs1
    have hframe1 : getTask s1 i = getTask store i := by
      rw [hs1]
      exact updateTaskStore_getTask_ne _ _ _ _ _ _ _ _ hi
    cases hget1 : getTask s1 taskId with
    | none =>
      simp only [hget1]
      exact ⟨hframe1, by simp⟩
    | some updatedTask =>
      have hupd : updatedTask.id = taskId := getTask_some_id _ _ _ hget1
      have hrec := executeStep_frame env u 8 s1 updatedTask i
        (by rw [hupd]; exact hi)
      simp only [hget1]
      exact ⟨hrec.1.trans hframe1, fun p hp => hupd ▸ hrec.2 p hp⟩

/-- Claim C3: a task in a terminal status (`completed`, `failed` or
`cancelled`) is never advanced by the resume path: for every arriving
email, the poller's resume step executes no handler for it and leaves its
row — status and step included — unchanged. -/
theorem claim_C3_terminal_never_resumed (env : WorkflowEnv) (u : Str)
    (store : List Task) (email : EmailInput) (t : Task)
    (hnodup : tasksIdNodup store) (hmem : t ∈ store)
    (hterm : t.status.isTerminal = true) :
    getTask (checkForTaskReply env u store email).1 t.id = some t ∧
    ∀ p ∈ (checkForTaskReply env u store email).2, p.1 ≠ t.id := by
  have hbase : getTask store t.id = some t := getTask_mem_nodup store t hnodup hmem
  unfold checkForTaskReply
  dsimp only
  cases hfind : findTaskWaitingForEmail store u email.fromAddr
      (if email.threadId.isEmpty then none else some email.threadId) with
  | none => exact ⟨hbase, by simp⟩
  | some task =>
    obtain ⟨_, hstatus, htaskmem⟩ :=
      findTaskWaitingForEmail_shape store u email.fromAddr _ task hfind
    have hne : t.id ≠ task.id := by
      intro hcontra
      have heq : t = task :=
        List.inj_on_of_nodup_map hnodup hmem htaskmem hcontra
      rw [heq, hstatus] at hterm
      simp [TaskStatus.isTerminal] at hterm
    have hframe := resumeFromReply_frame env u store task.id email t.id hne
    refine ⟨hframe.1.trans hbase, ?_⟩
    intro p hp
    rw [hframe.2 p hp]
    exact fun hc => hne hc.symm

/-- Witness for C3: with a completed task and a waiting task both matching
the arriving reply's sender, the resume path advances only the waiting one;
the completed task's row is untouched and no handler runs for it. -/
theorem claim_C3_terminal_never_resumed_witness :
    getTask (checkForTaskReply trivialWorkflowEnv "u1".toList
      [taskDone, taskWaiting] replyEmail0).1 taskDone.id = some taskDone ∧
    ∀ p ∈ (checkForTaskReply trivialWorkflowEnv "u1".toList
      [taskDone, taskWaiting] replyEmail0).2, p.1 ≠ taskDone.id :=
  claim_C3_terminal_never_resumed trivialWorkflowEnv "u1".toList
    [taskDone, taskWaiting] replyEmail0 taskDone (by decide) (by decide)
    (by decide)

/-- The conversation `runToolCalls` builds does not depend on the
execution-log accumulator. -/
theorem runToolCalls_fst (env : AgentEnv) :
    ∀ (tcs : List ToolCallReq) (conv : List AgentMessage)
      (executed executed' : List ExecRecord),
      (runToolCalls env tcs conv executed).1 =
        (runToolCalls env tcs conv executed').1 := by
  intro tcs
  induction tcs with
  | nil => intro conv executed executed'; rfl
  | cons tc rest ih =>
    intro conv executed executed'
    simp only [runToolCalls]
    exact ih _ _ _

/-- The execution-log accumulator of `runToolCalls` is threaded through
untouched. -/
theorem runToolCalls_snd (env : AgentEnv) :
    ∀ (tcs : List ToolCallReq) (conv : List AgentMessage)
      (executed : List ExecRecord),
      (runToolCalls env tcs conv executed).2 =
        executed ++ (runToolCalls env tcs conv []).2 := by
  intro tcs
  induction tcs with
  | nil => intro conv executed; simp [runToolCalls]
  | cons tc rest ih =>
    intro conv executed
    simp only [runToolCalls]
    rw [ih]
    conv_rhs => rw [ih]
    simp

/-- The `AgentResult` of the loop carries exactly the accumulated log plus
the directly-recomputed trace of the remaining iterations. -/
theorem runAgentLoop_toolCalls (env : AgentEnv) :
    ∀ (n : Nat) (conv : List AgentMessage) (executed : List ExecRecord)
      (pt ct : Nat),
      ((runAgentLoop env n conv executed pt ct).1).toolCalls =
        executed ++ agentTrace env n conv := by
  intro n
  induction n with
  | zero => intro conv executed pt ct; simp [runAgentLoop, agentTrace]
  | succ m ih =>
    intro conv executed pt ct
    simp only [runAgentLoop, agentTrace]
    cases hr : (env.oracle conv).toolCalls with
    | none => simp [hr]
    | some tcs =>
      cases htcs : tcs.isEmpty with
      | true => simp [hr, htcs]
      | false =>
        simp only [hr, htcs, Bool.false_eq_true, if_false]
        rw [ih, runToolCalls_snd,
          runToolCalls_fst env tcs _ executed []]
        simp

/-- When the model always requests a tool call, every run of the loop ends
by exhaustion and responds with the last assistant message (or the fixed
fallback) of the directly-recomputed final conversation. -/
theorem runAgentLoop_exhausts (env : AgentEnv)
    (h : ∀ conv, replyRequestsTools (env.oracle conv) = true) :
    ∀ (n : Nat) (conv : List AgentMessage) (executed : List ExecRecord)
      (pt ct : Nat),
      (runAgentLoop env n conv executed pt ct).2 = true ∧
      ((runAgentLoop env n conv executed pt ct).1).response =
        exhaustedResponse (agentConvAfter env n conv) := by
  intro n
  induction n with
  | zero => intro conv executed pt ct; exact ⟨rfl, rfl⟩
  | succ m ih =>
    intro conv executed pt ct
    have hreq := h conv
    cases hr : (env.oracle conv).toolCalls with
    | none => rw [replyRequestsTools, hr] at hreq; cases hreq
    | some tcs =>
      cases tcs with
      | nil => rw [replyRequestsTools, hr] at hreq; cases hreq
      | cons x xs =>
        simp only [runAgentLoop, agentConvAfter, hr, List.isEmpty_cons,
          Bool.false_eq_true, if_false]
        refine ⟨(ih _ _ _ _).1, ?_⟩
        rw [(ih _ _ _ _).2, runToolCalls_fst env (x :: xs) _ executed []]

/-- The conversation and log built by the streaming tool executor agree
with the non-streaming one. -/
theorem streamToolCalls_agree (env : AgentEnv) :
    ∀ (tcs : List ToolCallReq) (conv : List AgentMessage)
      (executed : List ExecRecord),
      (streamToolCalls env tcs conv executed).1 =
        (runToolCalls env tcs conv executed).1 ∧
      (streamToolCalls env tcs conv executed).2.1 =
        (runToolCalls env tcs conv executed).2 := by
  intro tcs
  induction tcs with
  | nil => intro conv executed; simp [streamToolCalls, runToolCalls]
  | cons tc rest ih =>
    intro conv executed
    simp only [streamToolCalls, runToolCalls]
    exact ⟨(ih _ _).1, (ih _ _).2⟩

/-- When the model always requests a tool call, the streaming loop's event
sequence ends with a `done` event carrying the accumulated log plus the
recomputed trace, marked `maxIterationsReached := true`. -/
theorem runAgentStreamLoop_done (env : AgentEnv)
    (h : ∀ conv, replyRequestsTools (env.oracle conv) = true) :
    ∀ (n it : Nat) (conv : List AgentMessage) (executed : List ExecRecord),
      (runAgentStreamLoop env n it conv executed).getLast? =
        some (.done (executed ++ agentTrace env n conv) (some true)) := by
  intro n
  induction n with
  | zero => intro it conv executed; simp [runAgentStreamLoop, agentTrace]
  | succ m ih =>
    intro it conv executed
    have hreq := h conv
    cases hr : (env.oracle conv).toolCalls with
    | none => rw [replyRequestsTools, hr] at hreq; cases hreq
    | some tcs =>
      cases tcs with
      | nil => rw [replyRequestsTools, hr] at hreq; cases hreq
      | cons x xs =>
        simp only [runAgentStreamLoop, agentTrace, hr, List.isEmpty_cons,
          Bool.false_eq_true, if_false]
        rw [show (StreamEvent.thinking (it + 1) ::
          ((streamToolCalls env (x :: xs)
              (conv ++ [⟨Role.assistant,
                ((env.oracle conv).content).getD [], none,
                some (x :: xs)⟩]) executed).2.2 ++
            runAgentStreamLoop env m (it + 1)
              (streamToolCalls env (x :: xs)
                (conv ++ [⟨Role.assistant,
                  ((env.oracle conv).content).getD [], none,
                  some (x :: xs)⟩]) executed).1
              (streamToolCalls env (x :: xs)
                (conv ++ [⟨Role.assistant,
                  ((env.oracle conv).content).getD [], none,
                  some (x :: xs)⟩]) executed).2.1)) =
          ([StreamEvent.thinking (it + 1)] ++
            (streamToolCalls env (x :: xs)
              (conv ++ [⟨Role.assistant,
                ((env.oracle conv).content).getD [], none,
                some (x :: xs)⟩]) executed).2.2) ++
            runAgentStreamLoop env m (it + 1)
              (streamToolCalls env (x :: xs)
                (conv ++ [⟨Role.assistant,
                  ((env.oracle conv).content).getD [], none,
                  some (x :: xs)⟩]) executed).1
              (streamToolCalls env (x :: xs)
                (conv ++ [⟨Role.assistant,
                  ((env.oracle conv).content).getD [], none,
                  some (x :: xs)⟩]) executed).2.1 by simp]
        rw [List.getLast?_append, ih]
        rw [(streamToolCalls_agree env (x :: xs) _ executed).1,
          (streamToolCalls_agree env (x :: xs) _ executed).2,
          runToolCalls_snd,
          runToolCalls_fst env (x :: xs) _ executed []]
        simp

/-- Claim C6 (amended): whenever the model always requests tool calls —
so the iteration budget is exhausted in every run — neither variant raises
an error; `runAgent` returns the last assistant message produced (or the
fixed fallback string) together with the full ordered tool-call log, but
its result carries no budget-exhaustion flag, while `runAgentStream` ends
its stream with a `done` event carrying the same log and marked
`maxIterationsReached := true`. -/
theorem claim_C6_amended_budget_exhaustion (env : AgentEnv)
    (messages : List AgentMessage) (n : Nat)
    (h : ∀ conv, replyRequestsTools (env.oracle conv) = true) :
    runAgentExhausted env messages n = true ∧
    (runAgent env messages n).response =
      exhaustedResponse (agentConvAfter env n (initialConversation messages)) ∧
    (runAgent env messages n).toolCalls =
      agentTrace env n (initialConversation messages) ∧
    (runAgentStream env messages n).getLast? =
      some (.done (agentTrace env n (initialConversation messages))
        (some true)) := by
  refine ⟨(runAgentLoop_exhausts env h n _ [] 0 0).1,
    (runAgentLoop_exhausts env h n _ [] 0 0).2,
    ?_, ?_⟩
  · rw [runAgent, runAgentLoop_toolCalls]
    simp
  · rw [runAgentStream, runAgentStreamLoop_done env h]
    simp

/-- Witness for the amended C6: under the always-tool-calling environment
`envA` with a budget of one iteration, the run exhausts, responds with the
assistant text, logs the one executed call, and the stream ends with a
flagged `done` event. -/
theorem claim_C6_amended_budget_exhaustion_witness :
    runAgentExhausted envA [] 1 = true ∧
    (runAgent envA [] 1).response =
      exhaustedResponse (agentConvAfter envA 1 (initialConversation [])) ∧
    (runAgent envA [] 1).toolCalls =
      agentTrace envA 1 (initialConversation []) ∧
    (runAgentStream envA [] 1).getLast? =
      some (.done (agentTrace envA 1 (initialConversation []))
        (some true)) :=
  claim_C6_amended_budget_exhaustion envA [] 1 (fun _ => rfl)

/-- A pattern containing a character other than `ch` never occurs in a text
whose characters are all `ch`. -/
theorem lastIndexOfFrom_go_uniform (ch b : Char) (pat : Str) (hb : b ∈ pat)
    (hne : b ≠ ch) (fromIdx : Nat) :
    ∀ (s : Str), (∀ c ∈ s, c = ch) → ∀ i,
      lastIndexOfFrom.go pat fromIdx s i = none := by
  intro s
  induction s with
  | nil => intro _ i; rfl
  | cons c cs ih =>
    intro hs i
    have hrest := ih (fun x hx => hs x (List.mem_cons_of_mem _ hx)) (i + 1)
    have hpre : pat.isPrefixOf (c :: cs) = false := by
      by_contra hcontra
      rw [Bool.not_eq_false, List.isPrefixOf_iff_prefix] at hcontra
      exact hne (hs b (hcontra.subset hb))
    simp [lastIndexOfFrom.go, hrest, hpre]

/-- `lastIndexOf` on an all-`'a'` text fails for any pattern with a
non-`'a'` character. -/
theorem lastIndexOfFrom_repl_a (n : Nat) (pat : Str) (b : Char)
    (hb : b ∈ pat) (hne : b ≠ 'a') (fromIdx : Nat) :
    lastIndexOfFrom (List.replicate n 'a') pat fromIdx = none :=
  lastIndexOfFrom_go_uniform 'a' b pat hb hne fromIdx _
    (fun _ hc => List.eq_of_mem_replicate hc) 0

/-- `findSentenceBreak` finds nothing in an all-`'a'` text. -/
theorem findSentenceBreak_repl_a (n s e : Nat) :
    findSentenceBreak (List.replicate n 'a') s e = none := by
  have h1 := lastIndexOfFrom_repl_a n ['.', ' '] '.' (by decide) (by decide) e
  have h2 := lastIndexOfFrom_repl_a n ['!', ' '] '!' (by decide) (by decide) e
  have h3 := lastIndexOfFrom_repl_a n ['?', ' '] '?' (by decide) (by decide) e
  have h4 := lastIndexOfFrom_repl_a n ['.', '\n'] '.' (by decide) (by decide) e
  have h5 := lastIndexOfFrom_repl_a n ['!', '\n'] '!' (by decide) (by decide) e
  have h6 := lastIndexOfFrom_repl_a n ['?', '\n'] '?' (by decide) (by decide) e
  simp only [findSentenceBreak, sentenceEnders, List.foldl,
    h1, h2, h3, h4, h5, h6]

/-- On an all-`'a'` text every boundary search fails, so the window simply
ends at `startIndex + chunkSize`, clamped to the text end. -/
theorem chunkEndIndex_repl_a (n cs s : Nat) :
    chunkEndIndex (List.replicate n 'a') cs s = replChunkEnd n cs s := by
  unfold chunkEndIndex chunkEndIndexRest replChunkEnd
  rw [List.length_replicate]
  by_cases h : s + cs < n
  · simp only [if_pos h]
    rw [lastIndexOfFrom_repl_a n ['\n', '\n'] '\n' (by decide) (by decide)
      (s + cs)]
    rw [findSentenceBreak_repl_a]
    rw [lastIndexOfFrom_repl_a n [' '] ' ' (by decide) (by decide) (s + cs)]
  · simp [h]

/-- `dropWhile` keeps a replicated list whose element fails the test. -/
theorem dropWhile_repl (p : Char → Bool) (k : Nat) (a : Char)
    (hp : p a = false) :
    List.dropWhile p (List.replicate k a) = List.replicate k a := by
  cases k with
  | zero => rfl
  | succ m => simp [List.replicate_succ, List.dropWhile_cons, hp]

/-- Trimming an all-`'a'` text changes nothing. -/
theorem jsTrim_repl_a (k : Nat) :
    jsTrim (List.replicate k 'a') = List.replicate k 'a' := by
  unfold jsTrim
  rw [dropWhile_repl _ _ _ (by decide), List.reverse_replicate,
    dropWhile_repl _ _ _ (by decide), List.reverse_replicate]

/-- Slicing a replicated list replicates. -/
theorem jsSlice_repl_a (n a b : Nat) :
    jsSlice (List.replicate n 'a') a b =
      List.replicate (min (b - a) (n - a)) 'a' := by
  rw [jsSlice, List.drop_replicate, List.take_replicate]

/-- One pushing iteration of the windowing loop on an all-`'a'` text: the
window is trimmed to itself, passes the minimum, and is appended; the next
start backs off by the overlap unless that does not pass the just-pushed
chunk's start. -/
theorem chunkLoop_repl_push (n fuel s ci : Nat) (opts : ChunkOptions)
    (acc : List TextChunk) (hs : s < n)
    (hpush : opts.minChunkSize ≤
      min (replChunkEnd n opts.chunkSize s - s) (n - s)) :
    chunkLoop (List.replicate n 'a') opts (fuel + 1) s ci acc =
      chunkLoop (List.replicate n 'a') opts fuel
        (if replChunkEnd n opts.chunkSize s - opts.chunkOverlap ≤ s then
          replChunkEnd n opts.chunkSize s
        else replChunkEnd n opts.chunkSize s - opts.chunkOverlap)
        (ci + 1)
        (acc ++ [⟨List.replicate
            (min (replChunkEnd n opts.chunkSize s - s) (n - s)) 'a',
          ci, s, replChunkEnd n opts.chunkSize s⟩]) := by
  rw [chunkLoop]
  rw [if_pos (show s < (List.replicate n 'a').length by
    rw [List.length_replicate]; exact hs)]
  dsimp only
  rw [chunkEndIndex_repl_a, jsSlice_repl_a, jsTrim_repl_a,
    List.length_replicate]
  rw [show decide (min (replChunkEnd n opts.chunkSize s - s) (n - s) ≥
    opts.minChunkSize) = true from decide_eq_true hpush]
  simp only [if_true]
  rw [List.getLast?_concat]

/-- The windowing loop stops as soon as the start reaches the text end. -/
theorem chunkLoop_repl_stop (n fuel s ci : Nat) (opts : ChunkOptions)
    (acc : List TextChunk) (hs : n ≤ s) :
    chunkLoop (List.replicate n 'a') opts fuel s ci acc = some acc := by
  have h : ¬ s < (List.replicate n 'a').length := by
    rw [List.length_replicate]
    exact Nat.not_lt.2 hs
  cases fuel with
  | zero => rw [chunkLoop, if_neg h]
  | succ m => rw [chunkLoop, if_neg h]

/-- The full run of `chunkText` on 3,000 `'a'` characters with the default
options: four chunks. -/
theorem chunkText_repl3000 :
    chunkText (List.replicate 3000 'a') {} =
      some [ ⟨List.replicate 1500 'a', 0, 0, 1500⟩
           , ⟨List.replicate 1500 'a', 1, 1300, 2800⟩
           , ⟨List.replicate 400 'a', 2, 2600, 3000⟩
           , ⟨List.replicate 200 'a', 3, 2800, 3000⟩ ] := by
  rw [chunkText, List.length_replicate]
  rw [if_neg (by decide : ¬ (3000 : Nat) = 0)]
  rw [if_neg (by decide : ¬ (3000 : Nat) < ChunkOptions.minChunkSize {})]
  show chunkLoop (List.replicate 3000 'a') {} 606202 0 0 [] = _
  rw [show (606202 : Nat) = 606201 + 1 from by decide]
  rw [chunkLoop_repl_push 3000 606201 0 0 {} [] (by decide) (by decide)]
  show chunkLoop (List.replicate 3000 'a') {} 606201 1300 1
    [⟨List.replicate 1500 'a', 0, 0, 1500⟩] = _
  rw [show (606201 : Nat) = 606200 + 1 from by decide]
  rw [chunkLoop_repl_push 3000 606200 1300 1 {} _ (by decide) (by decide)]
  show chunkLoop (List.replicate 3000 'a') {} 606200 2600 2
    [ ⟨List.replicate 1500 'a', 0, 0, 1500⟩
    , ⟨List.replicate 1500 'a', 1, 1300, 2800⟩] = _
  rw [show (606200 : Nat) = 606199 + 1 from by decide]
  rw [chunkLoop_repl_push 3000 606199 2600 2 {} _ (by decide) (by decide)]
  show chunkLoop (List.replicate 3000 'a') {} 606199 2800 3
    [ ⟨List.replicate 1500 'a', 0, 0, 1500⟩
    , ⟨List.replicate 1500 'a', 1, 1300, 2800⟩
    , ⟨List.replicate 400 'a', 2, 2600, 3000⟩] = _
  rw [show (606199 : Nat) = 606198 + 1 from by decide]
  rw [chunkLoop_repl_push 3000 606198 2800 3 {} _ (by decide) (by decide)]
  show chunkLoop (List.replicate 3000 'a') {} 606198 3000 4
    [ ⟨List.replicate 1500 'a', 0, 0, 1500⟩
    , ⟨List.replicate 1500 'a', 1, 1300, 2800⟩
    , ⟨List.replicate 400 'a', 2, 2600, 3000⟩
    , ⟨List.replicate 200 'a', 3, 2800, 3000⟩] = _
  rw [chunkLoop_repl_stop 3000 606198 3000 4 {} _ (by decide)]

/-- Counterexample to claim C5: the 3,000-character document of 3,000
identical characters, chunked with the default chunk size 1500 and overlap
200, yields four chunks — not two. -/
theorem claim_C5_counterexample :
    (chunkText (List.replicate 3000 'a') {}).map List.length ≠ some 2 := by
  rw [chunkText_repl3000]
  intro hcontra
  have hlen := Option.some.inj hcontra
  rw [List.length_cons, List.length_cons, List.length_cons,
    List.length_cons, List.length_nil] at hlen
  cases hlen

/-- Claim C5 (amended): chunking the 3,000-character document of 3,000
identical characters with chunk size 1500 / overlap 200 yields exactly four
chunks, and each adjacent pair shares a 200-character substring: the last
200 characters of the earlier chunk equal the first 200 characters of the
later one. -/
theorem claim_C5_amended_four_chunks :
    chunkText (List.replicate 3000 'a') {} =
      some [ ⟨List.replicate 1500 'a', 0, 0, 1500⟩
           , ⟨List.replicate 1500 'a', 1, 1300, 2800⟩
           , ⟨List.replicate 400 'a', 2, 2600, 3000⟩
           , ⟨List.replicate 200 'a', 3, 2800, 3000⟩ ] ∧
    (List.replicate 1500 'a').drop ((List.replicate 1500 'a').length - 200) =
      (List.replicate 1500 'a').take 200 ∧
    (List.replicate 1500 'a').drop ((List.replicate 1500 'a').length - 200) =
      (List.replicate 400 'a').take 200 ∧
    (List.replicate 400 'a').drop ((List.replicate 400 'a').length - 200) =
      (List.replicate 200 'a').take 200 := by
  refine ⟨chunkText_repl3000, ?_, ?_, ?_⟩ <;>
    rw [List.length_replicate, List.drop_replicate, List.take_replicate] <;>
    norm_num

end JumpAI
